import Mathlib

/-!
Verification of the headplane configuration loader and schema
(src/app/server/config/schema.ts and src/app/server/config/loader.ts).

The TypeScript code is shallowly embedded: parsed YAML/JS values become the
inductive `JValue`, each arktype schema becomes a validation function
`JValue → Option JValue` returning the morphed document (`none` is a
validation failure), and the loader's stages become pure functions over
explicit environment/filesystem oracles.  JavaScript peculiarities that the
source relies on (truthiness, `typeof null = "object"`, first-occurrence
`String.replace`, `Number` coercion, object spread) are modelled explicitly.
-/

namespace Headplane

/-- A JavaScript value as the config loader sees it: the image of parsed YAML
plus the extra JS atoms (`undefined`, `NaN`) that the loader's code paths can
produce or test for.  Objects are ordered association lists, as JS objects
preserve insertion order for the string keys used here. -/
inductive JValue where
  | str (s : String)
  | num (n : Int)
  | nan
  | bool (b : Bool)
  | null
  | undef
  | arr (xs : List JValue)
  | obj (fs : List (String × JValue))

/-- First value bound to key `k`, mirroring JS property lookup on the objects
built here (which have no duplicate keys). -/
def getKey (fs : List (String × JValue)) (k : String) : Option JValue :=
  match fs with
  | [] => none
  | (k2, v) :: rest => if k2 == k then some v else getKey rest k

/-- JS property assignment `o[k] = v`: overwrite in place if the key exists,
otherwise append (insertion order, as JS does for non-integer keys). -/
def setKey (fs : List (String × JValue)) (k : String) (v : JValue) :
    List (String × JValue) :=
  match fs with
  | [] => [(k, v)]
  | (k2, v2) :: rest =>
      if k2 == k then (k2, v) :: rest else (k2, v2) :: setKey rest k v

/-- Lookup along a path of keys, descending only through objects. -/
def getPath (v : JValue) (p : List String) : Option JValue :=
  match p, v with
  | [], _ => some v
  | k :: rest, .obj fs =>
      match getKey fs k with
      | some w => getPath w rest
      | none => none
  | _ :: _, _ => none

def isStrV : JValue → Bool
  | .str _ => true
  | _ => false

def isNumV : JValue → Bool
  | .num _ => true
  | _ => false

def isNanV : JValue → Bool
  | .nan => true
  | _ => false

def isBoolV : JValue → Bool
  | .bool _ => true
  | _ => false

def isNullV : JValue → Bool
  | .null => true
  | _ => false

def isObjV : JValue → Bool
  | .obj _ => true
  | _ => false

/-- JS `typeof v === "object"`: true for objects, arrays and `null`. -/
def isTypeofObj : JValue → Bool
  | .obj _ => true
  | .arr _ => true
  | .null => true
  | _ => false

/-- JS `v == null`, the loose comparison the schema pipes use: true exactly
for `null` and `undefined`. -/
def isNullish : JValue → Bool
  | .null => true
  | .undef => true
  | _ => false

/-- Own enumerable entries as seen by JS spread `{...v}` and `for...in`:
fields of an object, index/value pairs of an array, nothing otherwise. -/
def jsEntriesOwn : JValue → List (String × JValue)
  | .obj fs => fs
  | .arr xs => (List.range xs.length).zip xs |>.map (fun p => (toString p.1, p.2))
  | _ => []

/-! ## String helpers used by the schemas and the loader

These run on `String.data` with structural recursion so that every concrete
document in the theorems below evaluates inside the kernel. -/

/-- Split on a single-character separator (JS `String.split`). -/
def splitOnChar (sep : Char) : List Char → List (List Char)
  | [] => [[]]
  | c :: cs =>
      if c = sep then [] :: splitOnChar sep cs
      else
        match splitOnChar sep cs with
        | [] => [[c]]
        | g :: gs => (c :: g) :: gs

/-- Strip leading and trailing whitespace (JS `String.trim`). -/
def trimChars (l : List Char) : List Char :=
  ((l.dropWhile Char.isWhitespace).reverse.dropWhile Char.isWhitespace).reverse

def jsTrim (s : String) : String := String.mk (trimChars s.data)

/-- Value of a list of decimal digits. -/
def decDigits (l : List Char) : Nat :=
  l.foldl (fun n c => n * 10 + (c.toNat - 48)) 0

/-- A (possibly signed) run of decimal digits, as JS `Number` accepts for the
integer fields used here. -/
def parseIntChars : List Char → Option Int
  | '-' :: ds => if !ds.isEmpty && ds.all Char.isDigit
      then some (-(decDigits ds : Int)) else none
  | ds => if !ds.isEmpty && ds.all Char.isDigit
      then some ((decDigits ds : Int)) else none

/-- JS `Number(s)` restricted to the shapes the config uses: whitespace is
trimmed, the empty string is `0`, a decimal integer (possibly signed) parses,
anything else is `NaN`.  (Float and hex forms of `Number` are not modelled;
no claim depends on them.) -/
def jsNumberOfString (s : String) : JValue :=
  let t := trimChars s.data
  if t.isEmpty then .num 0
  else
    match parseIntChars t with
    | some n => .num n
    | none => .nan

/-- Model of arktype's `string.ip` in its IPv4 form (the form the
configuration examples use): four dot-separated decimal parts, each at
most 255. -/
def isIpString (s : String) : Bool :=
  let parts := splitOnChar '.' s.data
  parts.length == 4 &&
    parts.all (fun p => !p.isEmpty && p.all Char.isDigit && decDigits p ≤ 255)

/-- Split a character list at the first `"://"`. -/
def splitScheme : List Char → Option (List Char × List Char)
  | [] => none
  | ':' :: '/' :: '/' :: rest => some ([], rest)
  | c :: cs => (splitScheme cs).map (fun p => (c :: p.1, p.2))

/-- Model of arktype's `string.url` (parseability by `new URL`): a non-empty
alphabetic scheme, one `"://"`, and a non-empty space-free remainder. -/
def isUrlString (s : String) : Bool :=
  match splitScheme s.data with
  | some (scheme, rest) =>
      !scheme.isEmpty && scheme.all Char.isAlpha && !rest.isEmpty &&
        rest.all (fun c => c != ' ') && (splitScheme rest).isNone
  | none => false

/-- ASCII lower-casing, as JS `toLowerCase` acts on the ASCII environment
keys used here. -/
def lowerChar (c : Char) : Char :=
  if 'A' ≤ c ∧ c ≤ 'Z' then Char.ofNat (c.toNat + 32) else c

def jsToLower (s : String) : String := String.mk (s.data.map lowerChar)

/-- JS `v.endsWith("/")`. -/
def jsEndsWithSlash (s : String) : Bool := s.data.getLast? == some '/'

/-- JS `v.slice(0, -1)`: the string without its last character. -/
def jsDropLastChar (s : String) : String := String.mk s.data.dropLast

/-- The `headscale.url` morph from schema.ts line 56:
`v.endsWith("/") ? v.slice(0, -1) : v`. -/
def stripTrailingSlash (s : String) : String :=
  if jsEndsWithSlash s then jsDropLastChar s else s

/-! ## Schema building blocks (schema.ts) -/

/-- `const stringToBool = type("string | boolean").pipe((v) => Boolean(v))`:
accepts a string or boolean and coerces with JS truthiness, so every
non-empty string becomes `true`. -/
def stringToBool : JValue → Option JValue
  | .str s => some (.bool (s != ""))
  | .bool b => some (.bool b)
  | _ => none

/-- The three admissible `token_endpoint_auth_method` literals. -/
def isAuthMethod (v : JValue) : Bool :=
  match v with
  | .str s =>
      s == "client_secret_basic" || s == "client_secret_post" ||
        s == "client_secret_jwt"
  | _ => false

/-! ## Full schema validators (schema.ts)

Each arktype schema becomes one function from the parsed value to the morphed
document.  Undeclared-key policy: `headplaneConfig` sets
`onDeepUndeclaredKey("delete")` at the root, and inner schemas that set their
own `onDeepUndeclaredKey("reject")` (oidc, headscale, integration and its
children, server.agent) keep rejecting; `server` itself sets no policy, so
the root's deep delete governs it. -/

/-- Default produced by `serverConfig.agent.default(() => ({...}))`. -/
def agentDefault : JValue :=
  .obj [("authkey", .str ""), ("ttl", .num 180000),
    ("cache_path", .str "/var/lib/headplane/agent_cache.json")]

/-- `server.agent` schema: three defaulted fields, undeclared keys rejected. -/
def validateAgent (v : JValue) : Option JValue :=
  match v with
  | .obj fs =>
      if fs.any (fun kv => !(["authkey", "ttl", "cache_path"].contains kv.1))
      then none
      else do
        let authkey ←
          match getKey fs "authkey" with
          | none => some (JValue.str "")
          | some (.str s) => some (JValue.str s)
          | some _ => none
        let ttl ←
          match getKey fs "ttl" with
          | none => some (JValue.num 180000)
          | some (.num n) => some (JValue.num n)
          | some _ => none
        let cache ←
          match getKey fs "cache_path" with
          | none => some (JValue.str "/var/lib/headplane/agent_cache.json")
          | some (.str s) => some (JValue.str s)
          | some _ => none
        some (.obj [("authkey", authkey), ("ttl", ttl), ("cache_path", cache)])
  | _ => none

/-- `serverConfig`: declared fields validated and morphed, undeclared keys
deleted (root deep policy), then the cookie mutual-exclusion pipe
`(v.cookie_secret == null) === (v.cookie_secret_path == null)` throws. -/
def validateServer (v : JValue) : Option JValue :=
  match v with
  | .obj fs => do
      let host ←
        match getKey fs "host" with
        | some (.str s) => if isIpString s then some (JValue.str s) else none
        | _ => none
      let port ←
        match getKey fs "port" with
        | some (.str s) => some (jsNumberOfString s)
        | some (.num n) => some (JValue.num n)
        | _ => none
      let cs ←
        match getKey fs "cookie_secret" with
        | some (.str s) =>
            if s.length == 32 then some (JValue.str s) else none
        | some .null => some JValue.null
        | _ => none
      let csp ←
        match getKey fs "cookie_secret_path" with
        | none => some (Option.none (α := JValue))
        | some (.str s) => some (some (JValue.str s))
        | some _ => none
      let secure ← (getKey fs "cookie_secure").bind stringToBool
      let agent ←
        match getKey fs "agent" with
        | none => some agentDefault
        | some a => validateAgent a
      if (isNullV cs) == csp.isNone then none
      else
        some (.obj ([("host", host), ("port", port), ("cookie_secret", cs)] ++
          (match csp with
           | some p => [("cookie_secret_path", p)]
           | none => []) ++
          [("cookie_secure", secure), ("agent", agent)]))
  | _ => none

def oidcDeclaredKeys : List String :=
  ["issuer", "client_id", "client_secret", "client_secret_path",
   "token_endpoint_auth_method", "redirect_uri", "user_storage_file",
   "disable_api_key_login", "headscale_api_key", "headscale_api_key_path",
   "strict_validation"]

/-- `oidcConfig`: undeclared keys rejected (`onDeepUndeclaredKey("reject")`),
then the two mutual-exclusion pipes for `client_secret` and
`headscale_api_key`.  Note that `headscale_api_key` is declared as a plain
required `"string"`, so its validated value can never be nullish. -/
def validateOidc (v : JValue) : Option JValue :=
  match v with
  | .obj fs =>
      if fs.any (fun kv => !(oidcDeclaredKeys.contains kv.1)) then none
      else do
        let issuer ←
          match getKey fs "issuer" with
          | some (.str s) => if isUrlString s then some (JValue.str s) else none
          | _ => none
        let clientId ←
          match getKey fs "client_id" with
          | some (.str s) => some (JValue.str s)
          | _ => none
        let clientSecret ←
          match getKey fs "client_secret" with
          | some (.str s) => some (JValue.str s)
          | some .null => some JValue.null
          | _ => none
        let clientSecretPath ←
          match getKey fs "client_secret_path" with
          | none => some (Option.none (α := JValue))
          | some (.str s) => some (some (JValue.str s))
          | some _ => none
        let authMethod ←
          match getKey fs "token_endpoint_auth_method" with
          | some m => if isAuthMethod m then some m else none
          | none => none
        let redirect ←
          match getKey fs "redirect_uri" with
          | none => some (Option.none (α := JValue))
          | some (.str s) =>
              if isUrlString s then some (some (JValue.str s)) else none
          | some _ => none
        let userStorage ←
          match getKey fs "user_storage_file" with
          | none => some (JValue.str "/var/lib/headplane/users.json")
          | some (.str s) => some (JValue.str s)
          | some _ => none
        let disableApiKeyLogin ← (getKey fs "disable_api_key_login").bind stringToBool
        let apiKey ←
          match getKey fs "headscale_api_key" with
          | some (.str s) => some (JValue.str s)
          | _ => none
        let apiKeyPath ←
          match getKey fs "headscale_api_key_path" with
          | none => some (Option.none (α := JValue))
          | some (.str s) => some (some (JValue.str s))
          | some _ => none
        let strictValidation ←
          match getKey fs "strict_validation" with
          | none => some (JValue.bool true)
          | some x => stringToBool x
        if (isNullish clientSecret) == clientSecretPath.isNone then none
        else if (isNullish apiKey) == apiKeyPath.isNone then none
        else
          some (.obj ([("issuer", issuer), ("client_id", clientId),
            ("client_secret", clientSecret)] ++
            (match clientSecretPath with
             | some p => [("client_secret_path", p)]
             | none => []) ++
            [("token_endpoint_auth_method", authMethod)] ++
            (match redirect with
             | some r => [("redirect_uri", r)]
             | none => []) ++
            [("user_storage_file", userStorage),
             ("disable_api_key_login", disableApiKeyLogin),
             ("headscale_api_key", apiKey)] ++
            (match apiKeyPath with
             | some p => [("headscale_api_key_path", p)]
             | none => []) ++
            [("strict_validation", strictValidation)]))
  | _ => none

def headscaleDeclaredKeys : List String :=
  ["url", "tls_cert_path", "public_url", "config_path", "config_strict"]

/-- `headscaleConfig`: url validated as `string.url` then piped through the
trailing-slash strip; undeclared keys rejected. -/
def validateHeadscale (v : JValue) : Option JValue :=
  match v with
  | .obj fs =>
      if fs.any (fun kv => !(headscaleDeclaredKeys.contains kv.1)) then none
      else do
        let url ←
          match getKey fs "url" with
          | some (.str s) =>
              if isUrlString s then some (JValue.str (stripTrailingSlash s))
              else none
          | _ => none
        let tls ←
          match getKey fs "tls_cert_path" with
          | none => some (Option.none (α := JValue))
          | some (.str s) => some (some (JValue.str s))
          | some _ => none
        let pub ←
          match getKey fs "public_url" with
          | none => some (Option.none (α := JValue))
          | some (.str s) =>
              if isUrlString s then some (some (JValue.str s)) else none
          | some _ => none
        let cfgPath ←
          match getKey fs "config_path" with
          | none => some (Option.none (α := JValue))
          | some (.str s) => some (some (JValue.str s))
          | some _ => none
        let strict ← (getKey fs "config_strict").bind stringToBool
        some (.obj ([("url", url)] ++
          (match tls with
           | some t => [("tls_cert_path", t)]
           | none => []) ++
          (match pub with
           | some p => [("public_url", p)]
           | none => []) ++
          (match cfgPath with
           | some p => [("config_path", p)]
           | none => []) ++
          [("config_strict", strict)]))
  | _ => none

/-- `containerLabel`: a `{name, value}` object (the field that carries it is
optional); undeclared keys rejected under `integrationConfig`'s deep policy. -/
def validateContainerLabel (v : JValue) : Option JValue :=
  match v with
  | .obj fs =>
      if fs.any (fun kv => !(["name", "value"].contains kv.1)) then none
      else do
        let name ←
          match getKey fs "name" with
          | some (.str s) => some (JValue.str s)
          | _ => none
        let value ←
          match getKey fs "value" with
          | some (.str s) => some (JValue.str s)
          | _ => none
        some (.obj [("name", name), ("value", value)])
  | _ => none

/-- `dockerConfig`, rejecting undeclared keys via `integrationConfig`'s
`onDeepUndeclaredKey("reject")`. -/
def validateDocker (v : JValue) : Option JValue :=
  match v with
  | .obj fs =>
      if fs.any (fun kv =>
          !(["enabled", "container_name", "socket", "container_label"].contains kv.1))
      then none
      else do
        let enabled ← (getKey fs "enabled").bind stringToBool
        let name ←
          match getKey fs "container_name" with
          | some (.str s) => some (JValue.str s)
          | _ => none
        let socket ←
          match getKey fs "socket" with
          | none => some (JValue.str "unix:///var/run/docker.sock")
          | some (.str s) => some (JValue.str s)
          | some _ => none
        let label ←
          match getKey fs "container_label" with
          | none => some (Option.none (α := JValue))
          | some l => (validateContainerLabel l).map some
        some (.obj ([("enabled", enabled), ("container_name", name),
          ("socket", socket)] ++
          (match label with
           | some l => [("container_label", l)]
           | none => [])))
  | _ => none

def validateKubernetes (v : JValue) : Option JValue :=
  match v with
  | .obj fs =>
      if fs.any (fun kv =>
          !(["enabled", "pod_name", "validate_manifest"].contains kv.1))
      then none
      else do
        let enabled ← (getKey fs "enabled").bind stringToBool
        let pod ←
          match getKey fs "pod_name" with
          | some (.str s) => some (JValue.str s)
          | _ => none
        let vm ← (getKey fs "validate_manifest").bind stringToBool
        some (.obj [("enabled", enabled), ("pod_name", pod),
          ("validate_manifest", vm)])
  | _ => none

def validateProc (v : JValue) : Option JValue :=
  match v with
  | .obj fs =>
      if fs.any (fun kv => kv.1 != "enabled") then none
      else do
        let enabled ← (getKey fs "enabled").bind stringToBool
        some (.obj [("enabled", enabled)])
  | _ => none

/-- `integrationConfig`: three optional sub-sections, undeclared keys
rejected at this level and (deeply) inside the sub-sections. -/
def validateIntegration (v : JValue) : Option JValue :=
  match v with
  | .obj fs =>
      if fs.any (fun kv => !(["docker", "kubernetes", "proc"].contains kv.1))
      then none
      else do
        let docker ←
          match getKey fs "docker" with
          | none => some (Option.none (α := JValue))
          | some d => (validateDocker d).map some
        let kubernetes ←
          match getKey fs "kubernetes" with
          | none => some (Option.none (α := JValue))
          | some k => (validateKubernetes k).map some
        let proc ←
          match getKey fs "proc" with
          | none => some (Option.none (α := JValue))
          | some p => (validateProc p).map some
        some (.obj (
          (match docker with
           | some d => [("docker", d)]
           | none => []) ++
          (match kubernetes with
           | some k => [("kubernetes", k)]
           | none => []) ++
          (match proc with
           | some p => [("proc", p)]
           | none => [])))
  | _ => none

/-- `headplaneConfig`, the full/strict schema: required `debug`, `server`,
`headscale`, optional `oidc` and `integration`; undeclared keys at the
document root are deleted (`onDeepUndeclaredKey("delete")`), hence the output
carries only declared keys. -/
def validateFull (v : JValue) : Option JValue :=
  match v with
  | .obj fs => do
      let debug ← (getKey fs "debug").bind stringToBool
      let server ← (getKey fs "server").bind validateServer
      let oidc ←
        match getKey fs "oidc" with
        | none => some (Option.none (α := JValue))
        | some o => (validateOidc o).map some
      let integration ←
        match getKey fs "integration" with
        | none => some (Option.none (α := JValue))
        | some i => (validateIntegration i).map some
      let headscale ← (getKey fs "headscale").bind validateHeadscale
      some (.obj ([("debug", debug), ("server", server)] ++
        (match oidc with
         | some o => [("oidc", o)]
         | none => []) ++
        (match integration with
         | some i => [("integration", i)]
         | none => []) ++
        [("headscale", headscale)]))
  | _ => none

/-! ## Partial schema validators (schema.ts lines 91-158)

The hand-written partial schemas make most fields optional but keep
`cookie_secure`, `disable_api_key_login`, `strict_validation`,
`config_strict`, `enabled`, `validate_manifest` — and, at the root, `debug`,
`server` and `headscale` — required.  No `onDeepUndeclaredKey` is set
anywhere on the partial tree, so arktype's default applies: undeclared keys
are ignored and left in the output.  Morphed declared fields are replaced in
place; everything else of the input object is returned unchanged. -/

/-- True when the optionally-present key `k` satisfies `p`. -/
def optKeyIs (fs : List (String × JValue)) (k : String) (p : JValue → Bool) :
    Bool :=
  match getKey fs k with
  | none => true
  | some v => p v

/-- A string passing arktype's `string.url`. -/
def isUrlStringV (v : JValue) : Bool :=
  match v with
  | .str s => isUrlString s
  | _ => false

/-- `containerLabel` as an overlay check (no morphs, undeclared keys
ignored and kept): an object with required string `name` and `value`. -/
def isLabelOverlay (v : JValue) : Bool :=
  match v with
  | .obj fs =>
      (match getKey fs "name" with
       | some (.str _) => true
       | _ => false) &&
      (match getKey fs "value" with
       | some (.str _) => true
       | _ => false)
  | _ => false

def validateAgentOverlay (v : JValue) : Option JValue :=
  match v with
  | .obj fs =>
      if optKeyIs fs "authkey" isStrV && optKeyIs fs "ttl" isNumV &&
          optKeyIs fs "cache_path" isStrV
      then some (.obj fs)
      else none
  | _ => none

/-- `partialServerConfig`: `cookie_secure` is still required (schema.ts line
97); `port` is piped through `Number` when present; `cookie_secret` loses its
length pipe and is a bare `string | null`. -/
def validateServerOverlay (v : JValue) : Option JValue :=
  match v with
  | .obj fs => do
      let fs ←
        match getKey fs "host" with
        | none => some fs
        | some (.str s) => if isIpString s then some fs else none
        | some _ => none
      let fs ←
        match getKey fs "port" with
        | none => some fs
        | some (.str s) => some (setKey fs "port" (jsNumberOfString s))
        | some (.num n) => some (setKey fs "port" (JValue.num n))
        | some _ => none
      let fs ←
        match getKey fs "cookie_secret" with
        | none => some fs
        | some (.str _) => some fs
        | some .null => some fs
        | some _ => none
      let fs ←
        match getKey fs "cookie_secret_path" with
        | none => some fs
        | some (.str _) => some fs
        | some _ => none
      let fs ←
        match getKey fs "cookie_secure" with
        | some x => (stringToBool x).map (setKey fs "cookie_secure")
        | none => none
      let fs ←
        match getKey fs "agent" with
        | none => some fs
        | some a => (validateAgentOverlay a).map (setKey fs "agent")
      some (.obj fs)
  | _ => none

/-- `partialOidcConfig`: `disable_api_key_login` and `strict_validation`
remain required (schema.ts lines 113 and 116); no mutual-exclusion pipes. -/
def validateOidcOverlay (v : JValue) : Option JValue :=
  match v with
  | .obj fs => do
      let ok :=
        optKeyIs fs "issuer" isUrlStringV &&
        optKeyIs fs "client_id" isStrV &&
        optKeyIs fs "client_secret" (fun x => isStrV x || isNullV x) &&
        optKeyIs fs "client_secret_path" isStrV &&
        optKeyIs fs "token_endpoint_auth_method" isAuthMethod &&
        optKeyIs fs "redirect_uri" isUrlStringV &&
        optKeyIs fs "user_storage_file" isStrV &&
        optKeyIs fs "headscale_api_key" isStrV &&
        optKeyIs fs "headscale_api_key_path" isStrV
      if !ok then none
      else do
        let fs ←
          match getKey fs "disable_api_key_login" with
          | some x => (stringToBool x).map (setKey fs "disable_api_key_login")
          | none => none
        let fs ←
          match getKey fs "strict_validation" with
          | some x => (stringToBool x).map (setKey fs "strict_validation")
          | none => none
        some (.obj fs)
  | _ => none

/-- `partialHeadscaleConfig`: `config_strict` remains required (schema.ts
line 124); `url`, when present, is still piped through the slash strip. -/
def validateHeadscaleOverlay (v : JValue) : Option JValue :=
  match v with
  | .obj fs => do
      let fs ←
        match getKey fs "url" with
        | none => some fs
        | some (.str s) =>
            if isUrlString s
            then some (setKey fs "url" (JValue.str (stripTrailingSlash s)))
            else none
        | some _ => none
      let ok :=
        optKeyIs fs "tls_cert_path" isStrV &&
        optKeyIs fs "public_url" isUrlStringV &&
        optKeyIs fs "config_path" isStrV
      if !ok then none
      else
        match getKey fs "config_strict" with
        | some x => (stringToBool x).map (fun b => JValue.obj (setKey fs "config_strict" b))
        | none => none
  | _ => none

/-- The per-entry overlay docker schema (schema.ts lines 128-133): `enabled`
required, `container_name` and `socket` optional, `container_label` the
optional `containerLabel` object. -/
def validateDockerOverlay (v : JValue) : Option JValue :=
  match v with
  | .obj fs => do
      let ok :=
        optKeyIs fs "container_name" isStrV &&
        optKeyIs fs "socket" isStrV &&
        optKeyIs fs "container_label" isLabelOverlay
      if !ok then none
      else
        match getKey fs "enabled" with
        | some x => (stringToBool x).map (fun b => JValue.obj (setKey fs "enabled" b))
        | none => none
  | _ => none

def validateKubernetesOverlay (v : JValue) : Option JValue :=
  match v with
  | .obj fs => do
      if !(optKeyIs fs "pod_name" isStrV) then none
      else do
        let fs ←
          match getKey fs "enabled" with
          | some x => (stringToBool x).map (setKey fs "enabled")
          | none => none
        let fs ←
          match getKey fs "validate_manifest" with
          | some x => (stringToBool x).map (setKey fs "validate_manifest")
          | none => none
        some (.obj fs)
  | _ => none

def validateProcOverlay (v : JValue) : Option JValue :=
  match v with
  | .obj fs =>
      match getKey fs "enabled" with
      | some x => (stringToBool x).map (fun b => JValue.obj (setKey fs "enabled" b))
      | none => none
  | _ => none

def validateIntegrationOverlay (v : JValue) : Option JValue :=
  match v with
  | .obj fs => do
      let fs ←
        match getKey fs "docker" with
        | none => some fs
        | some d => (validateDockerOverlay d).map (setKey fs "docker")
      let fs ←
        match getKey fs "kubernetes" with
        | none => some fs
        | some k => (validateKubernetesOverlay k).map (setKey fs "kubernetes")
      let fs ←
        match getKey fs "proc" with
        | none => some fs
        | some p => (validateProcOverlay p).map (setKey fs "proc")
      some (.obj fs)
  | _ => none

/-- `partialHeadplaneConfig` (schema.ts lines 152-158): `debug`, `server` and
`headscale` are required; `oidc` and `integration` optional; undeclared root
keys are kept (no undeclared-key policy on the partial tree). -/
def validateOverlay (v : JValue) : Option JValue :=
  match v with
  | .obj fs => do
      let fs ←
        match getKey fs "debug" with
        | some x => (stringToBool x).map (setKey fs "debug")
        | none => none
      let fs ←
        match getKey fs "server" with
        | some s => (validateServerOverlay s).map (setKey fs "server")
        | none => none
      let fs ←
        match getKey fs "oidc" with
        | none => some fs
        | some o => (validateOidcOverlay o).map (setKey fs "oidc")
      let fs ←
        match getKey fs "integration" with
        | none => some fs
        | some i => (validateIntegrationOverlay i).map (setKey fs "integration")
      let fs ←
        match getKey fs "headscale" with
        | some h => (validateHeadscaleOverlay h).map (setKey fs "headscale")
        | none => none
      some (.obj fs)
  | _ => none

/-! ## deepMerge (loader.ts lines 274-294)

```
function deepMerge<T>(target: T, source: DeepPartial<T>): T {
  if (typeof target !== "object" || typeof source !== "object") return source;
  const result = { ...target };
  for (const key in source) {
    const val = source[key];
    if (val === undefined) continue;
    if (typeof val === "object") {
      result[key] = deepMerge(result[key], val); continue;
    }
    result[key] = val;
  }
  return result;
}
```

`typeof x === "object"` holds for objects, arrays and `null`, so the
recursive branch is taken for all three; spreading an array or `null` into
`result` yields a plain object (index keys for arrays, nothing for `null`);
`result[key]` for a missing key is `undefined`. -/

mutual

def deepMerge (t : JValue) (s : JValue) : JValue :=
  match s with
  | .obj sfs =>
      if isTypeofObj t then .obj (mergeFields (jsEntriesOwn t) sfs) else .obj sfs
  | .arr xs =>
      if isTypeofObj t then .obj (mergeArr (jsEntriesOwn t) 0 xs) else .arr xs
  | .null =>
      if isTypeofObj t then .obj (jsEntriesOwn t) else .null
  | v => v

def mergeFields (acc : List (String × JValue)) :
    List (String × JValue) → List (String × JValue)
  | [] => acc
  | (k, v) :: rest =>
      match v with
      | .undef => mergeFields acc rest
      | v =>
          if isTypeofObj v then
            mergeFields
              (setKey acc k (deepMerge ((getKey acc k).getD .undef) v)) rest
          else mergeFields (setKey acc k v) rest

def mergeArr (acc : List (String × JValue)) (i : Nat) :
    List JValue → List (String × JValue)
  | [] => acc
  | v :: rest =>
      match v with
      | .undef => mergeArr acc (i + 1) rest
      | v =>
          if isTypeofObj v then
            mergeArr
              (setKey acc (toString i)
                (deepMerge ((getKey acc (toString i)).getD .undef) v))
              (i + 1) rest
          else mergeArr (setKey acc (toString i) v) (i + 1) rest

end

/-! ## The merge described by the claim (C2)

`claimMerge` is written from the claim's words, independently of the code:
for every key of the override, a nested-object value is merged recursively
into the possibly-absent base value, an array or primitive value (including
`null`) overwrites the base value outright, an `undefined` value leaves the
base value in place; keys present only in the base are retained. -/

mutual

def claimMergeV (bk : Option JValue) (v : JValue) : JValue :=
  match v with
  | .obj ofs =>
      match bk with
      | some (.obj bfs) => .obj (claimFields bfs ofs)
      | _ => .obj (claimFields [] ofs)
  | v => v

def claimFields (acc : List (String × JValue)) :
    List (String × JValue) → List (String × JValue)
  | [] => acc
  | (_, .undef) :: rest => claimFields acc rest
  | (k, v) :: rest => claimFields (setKey acc k (claimMergeV (getKey acc k) v)) rest

end

/-- The claim's merge of an override document onto a base document. -/
def claimMerge (b o : JValue) : JValue := claimMergeV (some b) o

/-! ## Secret resolution (loader.ts lines 76-119) -/

/-! The interpolation marker names matched by
`path.match` against the global marker regex, in order, as a single
left-to-right pass: on a dollar-brace start collecting a name; a closing
brace closes the marker (the regex is non-greedy, so the first closing brace
ends it) and scanning resumes after it; a newline aborts the candidate (`.`
does not cross newlines), and since any later marker start before that
newline would hit the same newline first, scanning can resume right after
it; an unterminated candidate matches nothing. -/

mutual

def scanMarkers : List Char → List (List Char)
  | [] => []
  | '$' :: '{' :: cs => scanMarkerName cs []
  | _ :: cs => scanMarkers cs

def scanMarkerName : List Char → List Char → List (List Char)
  | [], _ => []
  | '}' :: cs, acc => acc.reverse :: scanMarkers cs
  | '\n' :: cs, _ => scanMarkers cs
  | c :: cs, acc => scanMarkerName cs (c :: acc)

end

/-- First-occurrence replacement, as JS `String.replace` with a string
pattern does: replace the leftmost occurrence of `pat` only. -/
def replaceFirst (s pat rep : List Char) : List Char :=
  match s with
  | [] => []
  | c :: cs =>
      if pat.isPrefixOf s then rep ++ s.drop pat.length
      else c :: replaceFirst cs pat rep

/-- The full match text for a marker name: `"${" ++ name ++ "}"`. -/
def markerText (name : List Char) : List Char := '$' :: '{' :: (name ++ ['}'])

/-- The interpolation loop of `loadSecretFromFile` over the precomputed
match list: for each marker name look up the environment; `if (!value)`
(unset or empty, both JS-falsy) aborts with that name; otherwise replace the
first occurrence of the marker text and continue. -/
def interpGo (envL : String → Option String) :
    List (List Char) → List Char → Except String (List Char)
  | [], acc => .ok acc
  | name :: rest, acc =>
      match envL (String.mk name) with
      | none => .error (String.mk name)
      | some v =>
          if v = "" then .error (String.mk name)
          else interpGo envL rest (replaceFirst acc (markerText name) v.data)

/-- Environment-variable interpolation of a secret path: the value of
`resolvedPath` when the loop completes, or the name of the first JS-falsy
variable. -/
def interpolatePath (envL : String → Option String) (path : String) :
    Except String String :=
  match interpGo envL (scanMarkers path.data) path.data with
  | .ok cs => .ok (String.mk cs)
  | .error n => .error n

inductive SecretError where
  | missingVar (name : String)
  | unreadable
  | empty
  | lengthMismatch (expected actual : Nat)

/-- The stage of `loadSecretFromFile` after the path is resolved: read the
file, reject untrimmed-empty content, apply the length check only when
`requiredLength` is JS-truthy (`requiredLength && ...` skips `0`), and
return the trimmed secret. -/
def readSecretStage (fileRead : String → Option String) (resolved : String)
    (requiredLength : Option Nat) : Except SecretError String :=
  match fileRead resolved with
  | none => .error .unreadable
  | some content =>
      if (jsTrim content).length = 0 then .error .empty
      else
        let trimmed := jsTrim content
        match requiredLength with
        | some n =>
            if n ≠ 0 ∧ trimmed.length ≠ n then
              .error (.lengthMismatch n trimmed.length)
            else .ok trimmed
        | none => .ok trimmed

/-- `loadSecretFromFile(path, secretName, requiredLength?)` over explicit
environment and filesystem oracles; the `secretName` label only feeds log
lines and is omitted. -/
def loadSecretFromFile (envL : String → Option String)
    (fileRead : String → Option String) (path : String)
    (requiredLength : Option Nat) : Except SecretError String :=
  match interpolatePath envL path with
  | .error n => .error (.missingVar n)
  | .ok resolved => readSecretStage fileRead resolved requiredLength

/-! ## Environment override coalescing (loader.ts lines 200-251) -/

/-- The filter of `coalesceEnv`: keep entries with a JS-truthy value, a key
starting with `HEADPLANE_` and a key outside the root-variable list
(`Object.values(envVariables)`, here an explicit parameter). -/
def keepEnvEntry (rootKeys : List String) (kv : String × String) : Bool :=
  kv.2 != "" && "HEADPLANE_".data.isPrefixOf kv.1.data &&
    !(rootKeys.contains kv.1)

/-- `key.replace("HEADPLANE_", "")` on a string key. -/
def jsReplaceFirstStr (s pat rep : String) : String :=
  String.mk (replaceFirst s.data pat.data rep.data)

/-- JS `String.split("__")`, specialised to the double-underscore delimiter
the coalescer uses: left-to-right, non-overlapping matches. -/
def splitDunder : List Char → List (List Char)
  | [] => [[]]
  | '_' :: '_' :: cs => [] :: splitDunder cs
  | c :: cs =>
      match splitDunder cs with
      | [] => [[c]]
      | g :: gs => (c :: g) :: gs

/-- Decode a kept environment key into a config path:
`key.replace("HEADPLANE_", "").toLowerCase().split("__")`. -/
def decodeEnvKey (k : String) : List String :=
  (splitDunder (jsToLower (jsReplaceFirstStr k "HEADPLANE_" "")).data).map
    String.mk

/-- The nested-assignment walk of `coalesceEnv`: create missing objects along
the path, descend through existing ones, and set the raw string value at the
last segment.  Descending into an existing non-object is the walk's JS
`TypeError`, modelled as `none`. -/
def insertPath (fs : List (String × JValue)) :
    List String → String → Option (List (String × JValue))
  | [], _ => none
  | seg :: rest, value =>
      match rest with
      | [] => some (setKey fs seg (.str value))
      | _ :: _ =>
          match getKey fs seg with
          | none =>
              (insertPath [] rest value).map
                (fun inner => setKey fs seg (.obj inner))
          | some (.obj inner) =>
              (insertPath inner rest value).map
                (fun inner2 => setKey fs seg (.obj inner2))
          | some _ => none

/-- The `envConfig` object built by `coalesceEnv` from the process
environment. -/
def buildEnvConfig (env : List (String × String)) (rootKeys : List String) :
    Option (List (String × JValue)) :=
  (env.filter (keepEnvEntry rootKeys)).foldlM
    (fun fs kv => insertPath fs (decodeEnvKey kv.1) kv.2) []

/-- `coalesceEnv`: build the env override object, validate it against the
partial schema, and deep-merge it onto the configuration. -/
def coalesceEnv (config : JValue) (env : List (String × String))
    (rootKeys : List String) : Option JValue := do
  let fs ← buildEnvConfig env rootKeys
  let toMerge ← validateOverlay (.obj fs)
  some (deepMerge config toMerge)

/-! ## The load pipeline (loader.ts lines 19-74) -/

/-- Update `config[k1][k2]` when that slot exists as an object field. -/
def setField2 (c : JValue) (k1 k2 : String) (v : JValue) : JValue :=
  match c with
  | .obj fs =>
      match getKey fs k1 with
      | some (.obj inner) => .obj (setKey fs k1 (.obj (setKey inner k2 v)))
      | _ => c
  | _ => c

/-- Lookup in an environment list, as `process.env[name]`. -/
def envLookup (env : List (String × String)) (n : String) : Option String :=
  (env.find? (fun kv => kv.1 == n)).map (fun kv => kv.2)

/-- The three secret-resolution steps of `loadConfig`: for each
secret-capable field whose `_path` variant is JS-truthy, resolve the secret
and overwrite the inline field (the cookie secret with required length 32). -/
def resolveSecretsStage (env : List (String × String))
    (fileRead : String → Option String) (config : JValue) : Option JValue := do
  let config ←
    match getPath config ["server", "cookie_secret_path"] with
    | some (.str p) =>
        if p != "" then
          (loadSecretFromFile (envLookup env) fileRead p (some 32)).toOption.map
            (fun s => setField2 config "server" "cookie_secret" (.str s))
        else some config
    | _ => some config
  let config ←
    match getPath config ["oidc", "client_secret_path"] with
    | some (.str p) =>
        if p != "" then
          (loadSecretFromFile (envLookup env) fileRead p none).toOption.map
            (fun s => setField2 config "oidc" "client_secret" (.str s))
        else some config
    | _ => some config
  let config ←
    match getPath config ["oidc", "headscale_api_key_path"] with
    | some (.str p) =>
        if p != "" then
          (loadSecretFromFile (envLookup env) fileRead p none).toOption.map
            (fun s => setField2 config "oidc" "headscale_api_key" (.str s))
        else some config
    | _ => some config
  some config

/-- `{ ...data, debug: log.debugEnabled }`, the input to schema validation. -/
def prepDoc (raw : JValue) (debug : Bool) : JValue :=
  .obj (setKey (jsEntriesOwn raw) "debug" (.bool debug))

/-- `configDotenv({ override: true })`: entries of the `.env` file override
pre-existing process environment variables of the same name. -/
def applyDotenv (env dotenvFile : List (String × String)) :
    List (String × String) :=
  dotenvFile.foldl
    (fun acc kv =>
      if acc.any (fun kv2 => kv2.1 == kv.1)
      then acc.map (fun kv2 => if kv2.1 == kv.1 then (kv2.1, kv.2) else kv2)
      else acc ++ [kv]) env

/-- `loadConfig` from the parsed file onward (path checking and YAML parsing
stay outside the model; `exit(1)` is `none`): validate the full schema with
the debug flag injected, resolve secrets, and — only when `loadEnv` is set —
load the `.env` file and coalesce the environment overrides. -/
def loadConfig (loadEnv : Bool) (rootKeys : List String) (raw : JValue)
    (debug : Bool) (env dotenvFile : List (String × String))
    (fileRead : String → Option String) : Option JValue := do
  let config ← validateFull (prepDoc raw debug)
  let config ← resolveSecretsStage env fileRead config
  if loadEnv then
    coalesceEnv config (applyDotenv env dotenvFile) rootKeys
  else
    some config

/-! ## Association-list lemmas -/

theorem getKey_setKey_self (fs : List (String × JValue)) (k : String)
    (v : JValue) : getKey (setKey fs k v) k = some v := by
  induction fs with
  | nil => simp [setKey, getKey]
  | cons hd tl ih =>
      cases hd with
      | mk k2 v2 =>
          by_cases h : k2 = k
          · subst h; simp [setKey, getKey]
          · simp [setKey, getKey, h, ih]

theorem getKey_setKey_ne (fs : List (String × JValue)) (k k2 : String)
    (v : JValue) (h : k ≠ k2) :
    getKey (setKey fs k v) k2 = getKey fs k2 := by
  induction fs with
  | nil => simp [setKey, getKey, h]
  | cons hd tl ih =>
      cases hd with
      | mk k3 v3 =>
          by_cases h2 : k3 = k
          · subst h2; simp [setKey, getKey, h]
          · simp [setKey, getKey, h2, ih]

theorem getKey_append_none (l1 l2 : List (String × JValue)) (k : String)
    (h : getKey l1 k = none) : getKey (l1 ++ l2) k = getKey l2 k := by
  induction l1 with
  | nil => simp
  | cons hd tl ih =>
      cases hd with
      | mk k2 v2 =>
          simp only [getKey] at h
          by_cases h2 : k2 = k
          · simp [h2] at h
          · simp only [List.cons_append, getKey]
            simp only [beq_iff_eq, h2, if_false] at h ⊢
            exact ih h

theorem setKey_eq_append (fs : List (String × JValue)) (k : String)
    (v : JValue) (h : getKey fs k = none) : setKey fs k v = fs ++ [(k, v)] := by
  induction fs with
  | nil => simp [setKey]
  | cons hd tl ih =>
      cases hd with
      | mk k2 v2 =>
          simp only [getKey] at h
          by_cases h2 : k2 = k
          · simp [h2] at h
          · simp only [setKey, beq_iff_eq, h2, if_false] at h ⊢
            simp [ih h]

theorem getKey_none_mem (fs : List (String × JValue)) (k : String)
    (kv : String × JValue) (h : getKey fs k = none) (hm : kv ∈ fs) :
    kv.1 ≠ k := by
  induction fs with
  | nil => cases hm
  | cons hd tl ih =>
      simp only [getKey] at h
      by_cases h2 : hd.1 = k
      · rw [show hd = (hd.1, hd.2) from rfl] at h
        simp [h2] at h
      · rcases List.mem_cons.mp hm with h3 | h3
        · subst h3; exact h2
        · rw [show hd = (hd.1, hd.2) from rfl] at h
          simp only [beq_iff_eq, h2, if_false] at h
          exact ih h h3

/-- Key presence. -/
def hasKeyB (fs : List (String × JValue)) (k : String) : Bool :=
  (getKey fs k).isSome

/-- No key occurs twice, as in any JS object. -/
def NodupKeysB : List (String × JValue) → Bool
  | [] => true
  | (k, _) :: rest => !(hasKeyB rest k) && NodupKeysB rest

/-! ## Values safe to copy verbatim

`GoodValB` holds for values free of explicit-`undefined` fields and of
duplicate keys; on such values the claim's recursive merge into an absent
base returns the override value unchanged, exactly as the code's
"return source" shortcut does. -/

mutual

def GoodValB : JValue → Bool
  | .undef => false
  | .obj fs => NodupKeysB fs && GoodFieldsB fs
  | _ => true

def GoodFieldsB : List (String × JValue) → Bool
  | [] => true
  | (_, v) :: rest => GoodValB v && GoodFieldsB rest

end

mutual

theorem claimMergeV_none_good : ∀ v : JValue, GoodValB v = true →
    claimMergeV none v = v
  | .str s, _ => by simp [claimMergeV]
  | .num n, _ => by simp [claimMergeV]
  | .nan, _ => by simp [claimMergeV]
  | .bool b, _ => by simp [claimMergeV]
  | .null, _ => by simp [claimMergeV]
  | .arr xs, _ => by simp [claimMergeV]
  | .undef, h => by simp [GoodValB] at h
  | .obj ofs, h => by
      simp only [GoodValB, Bool.and_eq_true] at h
      simp only [claimMergeV]
      rw [claimFields_good ofs [] h.1 h.2 (fun kv _ => by simp [getKey])]
      simp

theorem claimFields_good : ∀ (ofs : List (String × JValue))
    (acc : List (String × JValue)), NodupKeysB ofs = true →
    GoodFieldsB ofs = true → (∀ kv ∈ ofs, getKey acc kv.1 = none) →
    claimFields acc ofs = acc ++ ofs
  | [], acc, _, _, _ => by simp [claimFields]
  | (k, v) :: rest, acc, hnd, hgf, habs => by
      simp only [NodupKeysB, Bool.and_eq_true] at hnd
      simp only [GoodFieldsB, Bool.and_eq_true] at hgf
      have hacck : getKey acc k = none := habs (k, v) (List.mem_cons_self _ _)
      have hvne : v ≠ JValue.undef := by
        intro h
        rw [h] at hgf
        simp [GoodValB] at hgf
      have hstep : claimFields acc ((k, v) :: rest) =
          claimFields (setKey acc k (claimMergeV (getKey acc k) v)) rest := by
        cases v with
        | undef => exact absurd rfl hvne
        | str s => simp [claimFields]
        | num n => simp [claimFields]
        | nan => simp [claimFields]
        | bool b => simp [claimFields]
        | null => simp [claimFields]
        | arr xs => simp [claimFields]
        | obj fs2 => simp [claimFields]
      rw [hstep, hacck, claimMergeV_none_good v hgf.1,
        setKey_eq_append acc k v hacck]
      rw [claimFields_good rest (acc ++ [(k, v)]) hnd.2 hgf.2]
      · simp
      · intro kv hm
        have hne : kv.1 ≠ k := by
          have h1 := hnd.1
          simp only [hasKeyB, Bool.not_eq_true'] at h1
          have h2 : getKey rest k = none := by
            cases hgk : getKey rest k with
            | none => rfl
            | some w => rw [hgk] at h1; simp at h1
          exact getKey_none_mem rest k kv h2 hm
        rw [getKey_append_none]
        · simp only [getKey]
          rw [if_neg (by exact fun h2 => hne ((beq_iff_eq.mp h2).symm))]
        · exact habs kv (List.mem_cons_of_mem _ hm)

end

/-! ## Agreement of deepMerge with the claim's merge

`Compat bk v` records, structurally, that the override value `v` and the
base slot `bk` form a pair on which `deepMerge` and the claim's merge agree:
primitives and `undefined` always agree; arrays and `null` agree when the
base slot is not object-typeof (so the code overwrites rather than
recursing); objects agree when the base slot is an object (or `null` or
absent) and the agreement holds fieldwise, or when the base slot is absent or
primitive and the override subtree is verbatim-copyable (`GoodValB`). -/

def isTypeofObjOpt : Option JValue → Bool
  | some v => isTypeofObj v
  | none => false

mutual

def Compat : Option JValue → JValue → Bool
  | _, .undef => true
  | bk, .obj ofs =>
      match bk with
      | some (.obj bfs) => NodupKeysB ofs && CompatFields bfs ofs
      | some .null => NodupKeysB ofs && CompatFields [] ofs
      | some (.arr _) => false
      | _ => GoodValB (.obj ofs)
  | bk, .arr _ => !(isTypeofObjOpt bk)
  | bk, .null => !(isTypeofObjOpt bk)
  | _, _ => true

def CompatFields (bfs : List (String × JValue)) :
    List (String × JValue) → Bool
  | [] => true
  | (k, v) :: rest => Compat (getKey bfs k) v && CompatFields bfs rest

end

theorem compat_none_good (v : JValue) (h : GoodValB v = true) :
    Compat none v = true := by
  cases v with
  | undef => simp [Compat]
  | str s => simp [Compat]
  | num n => simp [Compat]
  | nan => simp [Compat]
  | bool b => simp [Compat]
  | null => simp [Compat, isTypeofObjOpt]
  | arr xs => simp [Compat, isTypeofObjOpt]
  | obj fs => simpa [Compat] using h

mutual

theorem deepMerge_eq_claimMergeV : ∀ (v : JValue) (bk : Option JValue),
    Compat bk v = true → deepMerge (bk.getD .undef) v = claimMergeV bk v
  | .str s, bk, _ => by simp [deepMerge, claimMergeV]
  | .num n, bk, _ => by simp [deepMerge, claimMergeV]
  | .nan, bk, _ => by simp [deepMerge, claimMergeV]
  | .bool b, bk, _ => by simp [deepMerge, claimMergeV]
  | .undef, bk, _ => by simp [deepMerge, claimMergeV]
  | .null, bk, h => by
      simp only [Compat, Bool.not_eq_true'] at h
      have ht : isTypeofObj (bk.getD .undef) = false := by
        cases bk with
        | none => simp [isTypeofObj]
        | some w => simpa [isTypeofObjOpt] using h
      simp [deepMerge, claimMergeV, ht]
  | .arr xs, bk, h => by
      simp only [Compat, Bool.not_eq_true'] at h
      have ht : isTypeofObj (bk.getD .undef) = false := by
        cases bk with
        | none => simp [isTypeofObj]
        | some w => simpa [isTypeofObjOpt] using h
      simp [deepMerge, claimMergeV, ht]
  | .obj ofs, bk, h => by
      cases bk with
      | none =>
          simp only [Compat] at h
          simp only [Option.getD, deepMerge, isTypeofObj, if_false,
            Bool.false_eq_true, claimMergeV]
          rw [show claimFields [] ofs = ofs by
            have h2 := claimMergeV_none_good (.obj ofs) h
            simpa [claimMergeV] using h2]
      | some w =>
          cases w with
          | obj bfs =>
              simp only [Compat, Bool.and_eq_true] at h
              simp only [Option.getD, deepMerge, isTypeofObj, if_true,
                jsEntriesOwn, claimMergeV]
              rw [mergeFields_eq_claimFields ofs bfs bfs h.1 h.2
                (fun _ _ => rfl)]
          | null =>
              simp only [Compat, Bool.and_eq_true] at h
              simp only [Option.getD, deepMerge, isTypeofObj, if_true,
                jsEntriesOwn, claimMergeV]
              rw [mergeFields_eq_claimFields ofs [] [] h.1 h.2
                (fun _ _ => rfl)]
          | arr xs => simp [Compat] at h
          | str s =>
              simp only [Compat] at h
              simp only [Option.getD, deepMerge, isTypeofObj, claimMergeV]
              rw [show claimFields [] ofs = ofs by
                have h2 := claimMergeV_none_good (.obj ofs) h
                simpa [claimMergeV] using h2]
              simp
          | num n =>
              simp only [Compat] at h
              simp only [Option.getD, deepMerge, isTypeofObj, claimMergeV]
              rw [show claimFields [] ofs = ofs by
                have h2 := claimMergeV_none_good (.obj ofs) h
                simpa [claimMergeV] using h2]
              simp
          | nan =>
              simp only [Compat] at h
              simp only [Option.getD, deepMerge, isTypeofObj, claimMergeV]
              rw [show claimFields [] ofs = ofs by
                have h2 := claimMergeV_none_good (.obj ofs) h
                simpa [claimMergeV] using h2]
              simp
          | bool b =>
              simp only [Compat] at h
              simp only [Option.getD, deepMerge, isTypeofObj, claimMergeV]
              rw [show claimFields [] ofs = ofs by
                have h2 := claimMergeV_none_good (.obj ofs) h
                simpa [claimMergeV] using h2]
              simp
          | undef =>
              simp only [Compat] at h
              simp only [Option.getD, deepMerge, isTypeofObj, claimMergeV]
              rw [show claimFields [] ofs = ofs by
                have h2 := claimMergeV_none_good (.obj ofs) h
                simpa [claimMergeV] using h2]
              simp

theorem mergeFields_eq_claimFields : ∀ (ofs : List (String × JValue))
    (acc bfs : List (String × JValue)), NodupKeysB ofs = true →
    CompatFields bfs ofs = true →
    (∀ kv ∈ ofs, getKey acc kv.1 = getKey bfs kv.1) →
    mergeFields acc ofs = claimFields acc ofs
  | [], acc, bfs, _, _, _ => by simp [mergeFields, claimFields]
  | (k, v) :: rest, acc, bfs, hnd, hcf, hag => by
      simp only [NodupKeysB, Bool.and_eq_true] at hnd
      simp only [CompatFields, Bool.and_eq_true] at hcf
      have hagk : getKey acc k = getKey bfs k :=
        hag (k, v) (List.mem_cons_self _ _)
      have hck : Compat (getKey acc k) v = true := by rw [hagk]; exact hcf.1
      have hrest : ∀ kv ∈ rest, kv.1 ≠ k := by
        intro kv hm
        have h1 := hnd.1
        simp only [hasKeyB, Bool.not_eq_true'] at h1
        have h2 : getKey rest k = none := by
          cases hgk : getKey rest k with
          | none => rfl
          | some w => rw [hgk] at h1; simp at h1
        exact getKey_none_mem rest k kv h2 hm
      have hagrest : ∀ (x : JValue) (kv : String × JValue), kv ∈ rest →
          getKey (setKey acc k x) kv.1 = getKey bfs kv.1 := by
        intro x kv hm
        rw [getKey_setKey_ne acc k kv.1 x (fun h2 => hrest kv hm h2.symm)]
        exact hag kv (List.mem_cons_of_mem _ hm)
      cases v with
      | undef =>
          simp only [mergeFields, claimFields]
          exact mergeFields_eq_claimFields rest acc bfs hnd.2 hcf.2
            (fun kv hm => hag kv (List.mem_cons_of_mem _ hm))
      | str s =>
          simp only [mergeFields, claimFields, isTypeofObj, if_false,
            claimMergeV]
          exact mergeFields_eq_claimFields rest (setKey acc k (.str s)) bfs
            hnd.2 hcf.2 (fun kv hm => hagrest _ kv hm)
      | num n =>
          simp only [mergeFields, claimFields, isTypeofObj, if_false,
            claimMergeV]
          exact mergeFields_eq_claimFields rest (setKey acc k (.num n)) bfs
            hnd.2 hcf.2 (fun kv hm => hagrest _ kv hm)
      | nan =>
          simp only [mergeFields, claimFields, isTypeofObj, if_false,
            claimMergeV]
          exact mergeFields_eq_claimFields rest (setKey acc k .nan) bfs
            hnd.2 hcf.2 (fun kv hm => hagrest _ kv hm)
      | bool b =>
          simp only [mergeFields, claimFields, isTypeofObj, if_false,
            claimMergeV]
          exact mergeFields_eq_claimFields rest (setKey acc k (.bool b)) bfs
            hnd.2 hcf.2 (fun kv hm => hagrest _ kv hm)
      | null =>
          simp only [mergeFields, claimFields, isTypeofObj, if_true,
            claimMergeV]
          rw [deepMerge_eq_claimMergeV JValue.null (getKey acc k) hck]
          exact mergeFields_eq_claimFields rest
            (setKey acc k (claimMergeV (getKey acc k) .null)) bfs
            hnd.2 hcf.2 (fun kv hm => hagrest _ kv hm)
      | arr xs =>
          simp only [mergeFields, claimFields, isTypeofObj, if_true,
            claimMergeV]
          rw [deepMerge_eq_claimMergeV (JValue.arr xs) (getKey acc k) hck]
          exact mergeFields_eq_claimFields rest
            (setKey acc k (claimMergeV (getKey acc k) (.arr xs))) bfs
            hnd.2 hcf.2 (fun kv hm => hagrest _ kv hm)
      | obj fs2 =>
          simp only [mergeFields, claimFields, isTypeofObj, if_true]
          rw [deepMerge_eq_claimMergeV (JValue.obj fs2) (getKey acc k) hck]
          exact mergeFields_eq_claimFields rest
            (setKey acc k (claimMergeV (getKey acc k) (.obj fs2))) bfs
            hnd.2 hcf.2 (fun kv hm => hagrest _ kv hm)

end

/-! ## Shapes of validated documents and validated overrides

`FullShapeB` describes a fully-validated configuration document after secret
resolution has actually replaced each secret-capable inline field with a
string (each schema level holds only its declared keys, with the types the
full validators produce).  It deliberately does NOT cover every document
full validation plus resolution can produce: a document with
`cookie_secret: null` (or `client_secret: null`) and the matching `_path`
field set to the empty string passes validation, and the loader's
JS-truthiness check on the path skips resolution for `""`, leaving the
inline field `null` — on such a base a `null` override takes `deepMerge`'s
typeof-object branch and yields `{}`, which is exactly where the original
C2 claim fails (see the C2 counterexample below).  `OverlayShapeB` describes
a partial-schema output: declared keys with their morphed types, and —
since the partial tree sets no undeclared-key policy — arbitrary
verbatim-kept undeclared values, restricted to `GoodValB` (no explicit
`undefined` inside, no duplicate keys: what any JS object passed through
arktype's ignore policy satisfies). -/

def isUndefV : JValue → Bool
  | .undef => true
  | _ => false

def fieldsAllB (p : String → JValue → Bool) : List (String × JValue) → Bool
  | [] => true
  | (k, v) :: rest => p k v && fieldsAllB p rest

def objShapeB (p : String → JValue → Bool) (v : JValue) : Bool :=
  match v with
  | .obj fs => NodupKeysB fs && fieldsAllB p fs
  | _ => false

theorem fieldsAllB_getKey (p : String → JValue → Bool)
    (fs : List (String × JValue)) (k : String) (w : JValue)
    (hall : fieldsAllB p fs = true) (hg : getKey fs k = some w) :
    p k w = true := by
  induction fs with
  | nil => simp [getKey] at hg
  | cons hd tl ih =>
      cases hd with
      | mk k2 v2 =>
          simp only [fieldsAllB, Bool.and_eq_true] at hall
          simp only [getKey] at hg
          by_cases h2 : k2 = k
          · subst h2
            simp only [beq_self_eq_true, if_true] at hg
            injection hg with hg
            subst hg
            exact hall.1
          · simp only [beq_iff_eq, h2, if_false] at hg
            exact ih hall.2 hg

theorem getKey_none_of_false (p : String → JValue → Bool)
    (fs : List (String × JValue)) (k : String)
    (hall : fieldsAllB p fs = true) (hfalse : ∀ w, p k w = false) :
    getKey fs k = none := by
  cases hgk : getKey fs k with
  | none => rfl
  | some w =>
      have := fieldsAllB_getKey p fs k w hall hgk
      rw [hfalse w] at this
      cases this

theorem goodFields_of_all (p : String → JValue → Bool)
    (hp : ∀ k v, p k v = true → GoodValB v = true) :
    ∀ fs, fieldsAllB p fs = true → GoodFieldsB fs = true := by
  intro fs h
  induction fs with
  | nil => simp [GoodFieldsB]
  | cons hd tl ih =>
      cases hd with
      | mk k v =>
          simp only [fieldsAllB, Bool.and_eq_true] at h
          simp only [GoodFieldsB, Bool.and_eq_true]
          exact ⟨hp k v h.1, ih h.2⟩

theorem goodVal_of_objShape (p : String → JValue → Bool)
    (hp : ∀ k v, p k v = true → GoodValB v = true) (v : JValue)
    (h : objShapeB p v = true) : GoodValB v = true := by
  cases v with
  | obj fs =>
      simp only [objShapeB, Bool.and_eq_true] at h
      simp only [GoodValB, Bool.and_eq_true]
      exact ⟨h.1, goodFields_of_all p hp fs h.2⟩
  | str s => rfl
  | num n => rfl
  | nan => rfl
  | bool b => rfl
  | null => rfl
  | undef => simp [objShapeB] at h
  | arr xs => simp [objShapeB] at h

theorem compatFields_of (pO pB : String → JValue → Bool)
    (hpt : ∀ k v (bk : Option JValue), pO k v = true →
      (∀ w, bk = some w → pB k w = true) → Compat bk v = true) :
    ∀ (ofs bfs : List (String × JValue)), fieldsAllB pO ofs = true →
    fieldsAllB pB bfs = true → CompatFields bfs ofs = true := by
  intro ofs bfs hO hB
  induction ofs with
  | nil => simp [CompatFields]
  | cons hd tl ih =>
      cases hd with
      | mk k v =>
          simp only [fieldsAllB, Bool.and_eq_true] at hO
          simp only [CompatFields, Bool.and_eq_true]
          refine ⟨hpt k v (getKey bfs k) hO.1 ?_, ih hO.2⟩
          intro w hw
          exact fieldsAllB_getKey pB bfs k w hB hw

theorem compat_section (pO pB : String → JValue → Bool)
    (hpt : ∀ k v (bk : Option JValue), pO k v = true →
      (∀ w, bk = some w → pB k w = true) → Compat bk v = true)
    (hgood : ∀ k v, pO k v = true → GoodValB v = true)
    (o : JValue) (bk : Option JValue) (ho : objShapeB pO o = true)
    (hb : ∀ w, bk = some w → objShapeB pB w = true) : Compat bk o = true := by
  cases o with
  | obj ofs =>
      simp only [objShapeB, Bool.and_eq_true] at ho
      cases bk with
      | none =>
          simp only [Compat]
          exact goodVal_of_objShape pO hgood (.obj ofs)
            (by simp [objShapeB, ho.1, ho.2])
      | some w =>
          have hw := hb w rfl
          cases w with
          | obj bfs =>
              simp only [objShapeB, Bool.and_eq_true] at hw
              simp only [Compat, Bool.and_eq_true]
              exact ⟨ho.1, compatFields_of pO pB hpt ofs bfs ho.2 hw.2⟩
          | str s => simp [objShapeB] at hw
          | num n => simp [objShapeB] at hw
          | nan => simp [objShapeB] at hw
          | bool b => simp [objShapeB] at hw
          | null => simp [objShapeB] at hw
          | undef => simp [objShapeB] at hw
          | arr xs => simp [objShapeB] at hw
  | str s => simp [objShapeB] at ho
  | num n => simp [objShapeB] at ho
  | nan => simp [objShapeB] at ho
  | bool b => simp [objShapeB] at ho
  | null => simp [objShapeB] at ho
  | undef => simp [objShapeB] at ho
  | arr xs => simp [objShapeB] at ho

theorem compat_prim (bk : Option JValue) (v : JValue)
    (h : (isStrV v || isNumV v || isNanV v || isBoolV v) = true) :
    Compat bk v = true := by
  cases v with
  | str s => simp [Compat]
  | num n => simp [Compat]
  | nan => simp [Compat]
  | bool b => simp [Compat]
  | null => simp [isStrV, isNumV, isNanV, isBoolV] at h
  | undef => simp [isStrV, isNumV, isNanV, isBoolV] at h
  | arr xs => simp [isStrV, isNumV, isNanV, isBoolV] at h
  | obj fs => simp [isStrV, isNumV, isNanV, isBoolV] at h

theorem goodVal_prim (v : JValue)
    (h : (isStrV v || isNumV v || isNanV v || isBoolV v || isNullV v) = true) :
    GoodValB v = true := by
  cases v with
  | str s => rfl
  | num n => rfl
  | nan => rfl
  | bool b => rfl
  | null => rfl
  | undef => simp [isStrV, isNumV, isNanV, isBoolV, isNullV] at h
  | arr xs => simp [isStrV, isNumV, isNanV, isBoolV, isNullV] at h
  | obj fs => simp [isStrV, isNumV, isNanV, isBoolV, isNullV] at h

theorem compat_undeclared (bk : Option JValue) (v : JValue)
    (hv : (GoodValB v || isUndefV v) = true)
    (hb : bk = none) : Compat bk v = true := by
  subst hb
  rcases Bool.or_eq_true_iff.mp hv with h | h
  · exact compat_none_good v h
  · cases v with
    | undef => simp [Compat]
    | str s => simp [isUndefV] at h
    | num n => simp [isUndefV] at h
    | nan => simp [isUndefV] at h
    | bool b => simp [isUndefV] at h
    | null => simp [isUndefV] at h
    | arr xs => simp [isUndefV] at h
    | obj fs => simp [isUndefV] at h

/-- Compatibility at a nullable string slot: the override is a string or
`null`, the base slot (when present) a string. -/
theorem compat_nullable_str (bk : Option JValue) (v : JValue)
    (hv : (isStrV v || isNullV v) = true)
    (hb : ∀ w, bk = some w → isStrV w = true) : Compat bk v = true := by
  cases v with
  | str s => simp [Compat]
  | null =>
      cases bk with
      | none => simp [Compat, isTypeofObjOpt]
      | some w =>
          have := hb w rfl
          cases w with
          | str s => simp [Compat, isTypeofObjOpt, isTypeofObj]
          | num n => simp [isStrV] at this
          | nan => simp [isStrV] at this
          | bool b => simp [isStrV] at this
          | null => simp [isStrV] at this
          | undef => simp [isStrV] at this
          | arr xs => simp [isStrV] at this
          | obj fs => simp [isStrV] at this
  | num n => simp [isStrV, isNullV] at hv
  | nan => simp [isStrV, isNullV] at hv
  | bool b => simp [isStrV, isNullV] at hv
  | undef => simp [isStrV, isNullV] at hv
  | arr xs => simp [isStrV, isNullV] at hv
  | obj fs => simp [isStrV, isNullV] at hv

/-! ### agent -/

def overlayAgentFieldB (k : String) (v : JValue) : Bool :=
  if k == "authkey" then isStrV v
  else if k == "ttl" then isNumV v
  else if k == "cache_path" then isStrV v
  else GoodValB v

def baseAgentFieldB (k : String) (v : JValue) : Bool :=
  if k == "authkey" then isStrV v
  else if k == "ttl" then isNumV v
  else if k == "cache_path" then isStrV v
  else false

theorem goodVal_agentField (k : String) (v : JValue)
    (h : overlayAgentFieldB k v = true) : GoodValB v = true := by
  by_cases h1 : k = "authkey"
  · simp [overlayAgentFieldB, h1] at h
    exact goodVal_prim v (by simp [h])
  by_cases h2 : k = "ttl"
  · simp [overlayAgentFieldB, h1, h2] at h
    exact goodVal_prim v (by simp [h])
  by_cases h3 : k = "cache_path"
  · simp [overlayAgentFieldB, h1, h2, h3] at h
    exact goodVal_prim v (by simp [h])
  · simpa [overlayAgentFieldB, h1, h2, h3] using h

theorem compat_agentField (k : String) (v : JValue) (bk : Option JValue)
    (ho : overlayAgentFieldB k v = true)
    (hb : ∀ w, bk = some w → baseAgentFieldB k w = true) :
    Compat bk v = true := by
  by_cases h1 : k = "authkey"
  · simp [overlayAgentFieldB, h1] at ho
    exact compat_prim bk v (by simp [ho])
  by_cases h2 : k = "ttl"
  · simp [overlayAgentFieldB, h1, h2] at ho
    exact compat_prim bk v (by simp [ho])
  by_cases h3 : k = "cache_path"
  · simp [overlayAgentFieldB, h1, h2, h3] at ho
    exact compat_prim bk v (by simp [ho])
  · simp [overlayAgentFieldB, h1, h2, h3] at ho
    refine compat_undeclared bk v (by simp [ho]) ?_
    cases bk with
    | none => rfl
    | some w =>
        have hbw := hb w rfl
        simp [baseAgentFieldB, h1, h2, h3] at hbw

theorem compat_agent (o : JValue) (bk : Option JValue)
    (ho : objShapeB overlayAgentFieldB o = true)
    (hb : ∀ w, bk = some w → objShapeB baseAgentFieldB w = true) :
    Compat bk o = true :=
  compat_section overlayAgentFieldB baseAgentFieldB compat_agentField
    goodVal_agentField o bk ho hb

/-! ### container_label -/

def overlayLabelFieldB (k : String) (v : JValue) : Bool :=
  if k == "name" then isStrV v
  else if k == "value" then isStrV v
  else GoodValB v

def baseLabelFieldB (k : String) (v : JValue) : Bool :=
  if k == "name" then isStrV v
  else if k == "value" then isStrV v
  else false

theorem goodVal_labelField (k : String) (v : JValue)
    (h : overlayLabelFieldB k v = true) : GoodValB v = true := by
  by_cases h1 : k = "name"
  · simp [overlayLabelFieldB, h1] at h
    exact goodVal_prim v (by simp [h])
  by_cases h2 : k = "value"
  · simp [overlayLabelFieldB, h1, h2] at h
    exact goodVal_prim v (by simp [h])
  · simpa [overlayLabelFieldB, h1, h2] using h

theorem compat_labelField (k : String) (v : JValue) (bk : Option JValue)
    (ho : overlayLabelFieldB k v = true)
    (hb : ∀ w, bk = some w → baseLabelFieldB k w = true) :
    Compat bk v = true := by
  by_cases h1 : k = "name"
  · simp [overlayLabelFieldB, h1] at ho
    exact compat_prim bk v (by simp [ho])
  by_cases h2 : k = "value"
  · simp [overlayLabelFieldB, h1, h2] at ho
    exact compat_prim bk v (by simp [ho])
  · simp [overlayLabelFieldB, h1, h2] at ho
    refine compat_undeclared bk v (by simp [ho]) ?_
    cases bk with
    | none => rfl
    | some w =>
        have hbw := hb w rfl
        simp [baseLabelFieldB, h1, h2] at hbw

theorem compat_label (o : JValue) (bk : Option JValue)
    (ho : objShapeB overlayLabelFieldB o = true)
    (hb : ∀ w, bk = some w → objShapeB baseLabelFieldB w = true) :
    Compat bk o = true :=
  compat_section overlayLabelFieldB baseLabelFieldB compat_labelField
    goodVal_labelField o bk ho hb

/-! ### server -/

def overlayServerFieldB (k : String) (v : JValue) : Bool :=
  if k == "host" then isStrV v
  else if k == "port" then isNumV v || isNanV v
  else if k == "cookie_secret" then isStrV v || isNullV v
  else if k == "cookie_secret_path" then isStrV v
  else if k == "cookie_secure" then isBoolV v
  else if k == "agent" then objShapeB overlayAgentFieldB v
  else GoodValB v

/-- Server-section field shape for a base whose cookie secret got resolved.
`cookie_secret` is required to be a string here, which is NOT guaranteed by
validation plus resolution alone: a validated document with `cookie_secret:
null` and `cookie_secret_path: ""` is left untouched by `resolveSecretsStage`
(the JS truthiness check `if (path)` is false on `""`), so its `cookie_secret`
stays `null` and falls outside this predicate.  That excluded base is exactly
the C2 counterexample's base (`nullCookieBase` below). -/
def baseServerFieldB (k : String) (v : JValue) : Bool :=
  if k == "host" then isStrV v
  else if k == "port" then isNumV v || isNanV v
  else if k == "cookie_secret" then isStrV v
  else if k == "cookie_secret_path" then isStrV v
  else if k == "cookie_secure" then isBoolV v
  else if k == "agent" then objShapeB baseAgentFieldB v
  else false

theorem goodVal_serverField (k : String) (v : JValue)
    (h : overlayServerFieldB k v = true) : GoodValB v = true := by
  by_cases h1 : k = "host"
  · simp [overlayServerFieldB, h1] at h
    exact goodVal_prim v (by simp [h])
  by_cases h2 : k = "port"
  · simp [overlayServerFieldB, h1, h2] at h
    exact goodVal_prim v (by rcases h with h | h <;> simp [h])
  by_cases h3 : k = "cookie_secret"
  · simp [overlayServerFieldB, h1, h2, h3] at h
    exact goodVal_prim v (by rcases h with h | h <;> simp [h])
  by_cases h4 : k = "cookie_secret_path"
  · simp [overlayServerFieldB, h1, h2, h3, h4] at h
    exact goodVal_prim v (by simp [h])
  by_cases h5 : k = "cookie_secure"
  · simp [overlayServerFieldB, h1, h2, h3, h4, h5] at h
    exact goodVal_prim v (by simp [h])
  by_cases h6 : k = "agent"
  · simp [overlayServerFieldB, h1, h2, h3, h4, h5, h6] at h
    exact goodVal_of_objShape overlayAgentFieldB goodVal_agentField v h
  · simpa [overlayServerFieldB, h1, h2, h3, h4, h5, h6] using h

theorem compat_serverField (k : String) (v : JValue) (bk : Option JValue)
    (ho : overlayServerFieldB k v = true)
    (hb : ∀ w, bk = some w → baseServerFieldB k w = true) :
    Compat bk v = true := by
  by_cases h1 : k = "host"
  · simp [overlayServerFieldB, h1] at ho
    exact compat_prim bk v (by simp [ho])
  by_cases h2 : k = "port"
  · simp [overlayServerFieldB, h1, h2] at ho
    exact compat_prim bk v (by rcases ho with h | h <;> simp [h])
  by_cases h3 : k = "cookie_secret"
  · simp [overlayServerFieldB, h1, h2, h3] at ho
    refine compat_nullable_str bk v (by rcases ho with h | h <;> simp [h]) ?_
    intro w hw
    have hbw := hb w hw
    simpa [baseServerFieldB, h1, h2, h3] using hbw
  by_cases h4 : k = "cookie_secret_path"
  · simp [overlayServerFieldB, h1, h2, h3, h4] at ho
    exact compat_prim bk v (by simp [ho])
  by_cases h5 : k = "cookie_secure"
  · simp [overlayServerFieldB, h1, h2, h3, h4, h5] at ho
    exact compat_prim bk v (by simp [ho])
  by_cases h6 : k = "agent"
  · simp [overlayServerFieldB, h1, h2, h3, h4, h5, h6] at ho
    refine compat_agent v bk ho ?_
    intro w hw
    have hbw := hb w hw
    simpa [baseServerFieldB, h1, h2, h3, h4, h5, h6] using hbw
  · simp [overlayServerFieldB, h1, h2, h3, h4, h5, h6] at ho
    refine compat_undeclared bk v (by simp [ho]) ?_
    cases bk with
    | none => rfl
    | some w =>
        have hbw := hb w rfl
        simp [baseServerFieldB, h1, h2, h3, h4, h5, h6] at hbw

theorem compat_server (o : JValue) (bk : Option JValue)
    (ho : objShapeB overlayServerFieldB o = true)
    (hb : ∀ w, bk = some w → objShapeB baseServerFieldB w = true) :
    Compat bk o = true :=
  compat_section overlayServerFieldB baseServerFieldB compat_serverField
    goodVal_serverField o bk ho hb

/-! ### oidc -/

def overlayOidcFieldB (k : String) (v : JValue) : Bool :=
  if k == "issuer" then isStrV v
  else if k == "client_id" then isStrV v
  else if k == "client_secret" then isStrV v || isNullV v
  else if k == "client_secret_path" then isStrV v
  else if k == "token_endpoint_auth_method" then isStrV v
  else if k == "redirect_uri" then isStrV v
  else if k == "user_storage_file" then isStrV v
  else if k == "disable_api_key_login" then isBoolV v
  else if k == "headscale_api_key" then isStrV v
  else if k == "headscale_api_key_path" then isStrV v
  else if k == "strict_validation" then isBoolV v
  else GoodValB v

/-- Oidc-section field shape for a base whose client secret got resolved.
As with `baseServerFieldB`, requiring `client_secret` to be a string excludes
a reachable base: a validated document with `client_secret: null` and
`client_secret_path: ""` survives `resolveSecretsStage` unchanged (the JS
truthiness check skips the empty path), leaving `client_secret` as `null`. -/
def baseOidcFieldB (k : String) (v : JValue) : Bool :=
  if k == "issuer" then isStrV v
  else if k == "client_id" then isStrV v
  else if k == "client_secret" then isStrV v
  else if k == "client_secret_path" then isStrV v
  else if k == "token_endpoint_auth_method" then isStrV v
  else if k == "redirect_uri" then isStrV v
  else if k == "user_storage_file" then isStrV v
  else if k == "disable_api_key_login" then isBoolV v
  else if k == "headscale_api_key" then isStrV v
  else if k == "headscale_api_key_path" then isStrV v
  else if k == "strict_validation" then isBoolV v
  else false

theorem goodVal_oidcField (k : String) (v : JValue)
    (h : overlayOidcFieldB k v = true) : GoodValB v = true := by
  by_cases h1 : k = "issuer"
  · simp [overlayOidcFieldB, h1] at h
    exact goodVal_prim v (by simp [h])
  by_cases h2 : k = "client_id"
  · simp [overlayOidcFieldB, h1, h2] at h
    exact goodVal_prim v (by simp [h])
  by_cases h3 : k = "client_secret"
  · simp [overlayOidcFieldB, h1, h2, h3] at h
    exact goodVal_prim v (by rcases h with h | h <;> simp [h])
  by_cases h4 : k = "client_secret_path"
  · simp [overlayOidcFieldB, h1, h2, h3, h4] at h
    exact goodVal_prim v (by simp [h])
  by_cases h5 : k = "token_endpoint_auth_method"
  · simp [overlayOidcFieldB, h1, h2, h3, h4, h5] at h
    exact goodVal_prim v (by simp [h])
  by_cases h6 : k = "redirect_uri"
  · simp [overlayOidcFieldB, h1, h2, h3, h4, h5, h6] at h
    exact goodVal_prim v (by simp [h])
  by_cases h7 : k = "user_storage_file"
  · simp [overlayOidcFieldB, h1, h2, h3, h4, h5, h6, h7] at h
    exact goodVal_prim v (by simp [h])
  by_cases h8 : k = "disable_api_key_login"
  · simp [overlayOidcFieldB, h1, h2, h3, h4, h5, h6, h7, h8] at h
    exact goodVal_prim v (by simp [h])
  by_cases h9 : k = "headscale_api_key"
  · simp [overlayOidcFieldB, h1, h2, h3, h4, h5, h6, h7, h8, h9] at h
    exact goodVal_prim v (by simp [h])
  by_cases h10 : k = "headscale_api_key_path"
  · simp [overlayOidcFieldB, h1, h2, h3, h4, h5, h6, h7, h8, h9, h10] at h
    exact goodVal_prim v (by simp [h])
  by_cases h11 : k = "strict_validation"
  · simp [overlayOidcFieldB, h1, h2, h3, h4, h5, h6, h7, h8, h9, h10,
      h11] at h
    exact goodVal_prim v (by simp [h])
  · simpa [overlayOidcFieldB, h1, h2, h3, h4, h5, h6, h7, h8, h9, h10,
      h11] using h

theorem compat_oidcField (k : String) (v : JValue) (bk : Option JValue)
    (ho : overlayOidcFieldB k v = true)
    (hb : ∀ w, bk = some w → baseOidcFieldB k w = true) :
    Compat bk v = true := by
  by_cases h1 : k = "issuer"
  · simp [overlayOidcFieldB, h1] at ho
    exact compat_prim bk v (by simp [ho])
  by_cases h2 : k = "client_id"
  · simp [overlayOidcFieldB, h1, h2] at ho
    exact compat_prim bk v (by simp [ho])
  by_cases h3 : k = "client_secret"
  · simp [overlayOidcFieldB, h1, h2, h3] at ho
    refine compat_nullable_str bk v (by rcases ho with h | h <;> simp [h]) ?_
    intro w hw
    have hbw := hb w hw
    simpa [baseOidcFieldB, h1, h2, h3] using hbw
  by_cases h4 : k = "client_secret_path"
  · simp [overlayOidcFieldB, h1, h2, h3, h4] at ho
    exact compat_prim bk v (by simp [ho])
  by_cases h5 : k = "token_endpoint_auth_method"
  · simp [overlayOidcFieldB, h1, h2, h3, h4, h5] at ho
    exact compat_prim bk v (by simp [ho])
  by_cases h6 : k = "redirect_uri"
  · simp [overlayOidcFieldB, h1, h2, h3, h4, h5, h6] at ho
    exact compat_prim bk v (by simp [ho])
  by_cases h7 : k = "user_storage_file"
  · simp [overlayOidcFieldB, h1, h2, h3, h4, h5, h6, h7] at ho
    exact compat_prim bk v (by simp [ho])
  by_cases h8 : k = "disable_api_key_login"
  · simp [overlayOidcFieldB, h1, h2, h3, h4, h5, h6, h7, h8] at ho
    exact compat_prim bk v (by simp [ho])
  by_cases h9 : k = "headscale_api_key"
  · simp [overlayOidcFieldB, h1, h2, h3, h4, h5, h6, h7, h8, h9] at ho
    exact compat_prim bk v (by simp [ho])
  by_cases h10 : k = "headscale_api_key_path"
  · simp [overlayOidcFieldB, h1, h2, h3, h4, h5, h6, h7, h8, h9, h10] at ho
    exact compat_prim bk v (by simp [ho])
  by_cases h11 : k = "strict_validation"
  · simp [overlayOidcFieldB, h1, h2, h3, h4, h5, h6, h7, h8, h9, h10,
      h11] at ho
    exact compat_prim bk v (by simp [ho])
  · simp [overlayOidcFieldB, h1, h2, h3, h4, h5, h6, h7, h8, h9, h10,
      h11] at ho
    refine compat_undeclared bk v (by simp [ho]) ?_
    cases bk with
    | none => rfl
    | some w =>
        have hbw := hb w rfl
        simp [baseOidcFieldB, h1, h2, h3, h4, h5, h6, h7, h8, h9, h10,
          h11] at hbw

theorem compat_oidc (o : JValue) (bk : Option JValue)
    (ho : objShapeB overlayOidcFieldB o = true)
    (hb : ∀ w, bk = some w → objShapeB baseOidcFieldB w = true) :
    Compat bk o = true :=
  compat_section overlayOidcFieldB baseOidcFieldB compat_oidcField
    goodVal_oidcField o bk ho hb

/-! ### headscale -/

def overlayHeadscaleFieldB (k : String) (v : JValue) : Bool :=
  if k == "url" then isStrV v
  else if k == "tls_cert_path" then isStrV v
  else if k == "public_url" then isStrV v
  else if k == "config_path" then isStrV v
  else if k == "config_strict" then isBoolV v
  else GoodValB v

def baseHeadscaleFieldB (k : String) (v : JValue) : Bool :=
  if k == "url" then isStrV v
  else if k == "tls_cert_path" then isStrV v
  else if k == "public_url" then isStrV v
  else if k == "config_path" then isStrV v
  else if k == "config_strict" then isBoolV v
  else false

theorem goodVal_headscaleField (k : String) (v : JValue)
    (h : overlayHeadscaleFieldB k v = true) : GoodValB v = true := by
  by_cases h1 : k = "url"
  · simp [overlayHeadscaleFieldB, h1] at h
    exact goodVal_prim v (by simp [h])
  by_cases h2 : k = "tls_cert_path"
  · simp [overlayHeadscaleFieldB, h1, h2] at h
    exact goodVal_prim v (by simp [h])
  by_cases h3 : k = "public_url"
  · simp [overlayHeadscaleFieldB, h1, h2, h3] at h
    exact goodVal_prim v (by simp [h])
  by_cases h4 : k = "config_path"
  · simp [overlayHeadscaleFieldB, h1, h2, h3, h4] at h
    exact goodVal_prim v (by simp [h])
  by_cases h5 : k = "config_strict"
  · simp [overlayHeadscaleFieldB, h1, h2, h3, h4, h5] at h
    exact goodVal_prim v (by simp [h])
  · simpa [overlayHeadscaleFieldB, h1, h2, h3, h4, h5] using h

theorem compat_headscaleField (k : String) (v : JValue) (bk : Option JValue)
    (ho : overlayHeadscaleFieldB k v = true)
    (hb : ∀ w, bk = some w → baseHeadscaleFieldB k w = true) :
    Compat bk v = true := by
  by_cases h1 : k = "url"
  · simp [overlayHeadscaleFieldB, h1] at ho
    exact compat_prim bk v (by simp [ho])
  by_cases h2 : k = "tls_cert_path"
  · simp [overlayHeadscaleFieldB, h1, h2] at ho
    exact compat_prim bk v (by simp [ho])
  by_cases h3 : k = "public_url"
  · simp [overlayHeadscaleFieldB, h1, h2, h3] at ho
    exact compat_prim bk v (by simp [ho])
  by_cases h4 : k = "config_path"
  · simp [overlayHeadscaleFieldB, h1, h2, h3, h4] at ho
    exact compat_prim bk v (by simp [ho])
  by_cases h5 : k = "config_strict"
  · simp [overlayHeadscaleFieldB, h1, h2, h3, h4, h5] at ho
    exact compat_prim bk v (by simp [ho])
  · simp [overlayHeadscaleFieldB, h1, h2, h3, h4, h5] at ho
    refine compat_undeclared bk v (by simp [ho]) ?_
    cases bk with
    | none => rfl
    | some w =>
        have hbw := hb w rfl
        simp [baseHeadscaleFieldB, h1, h2, h3, h4, h5] at hbw

theorem compat_headscale (o : JValue) (bk : Option JValue)
    (ho : objShapeB overlayHeadscaleFieldB o = true)
    (hb : ∀ w, bk = some w → objShapeB baseHeadscaleFieldB w = true) :
    Compat bk o = true :=
  compat_section overlayHeadscaleFieldB baseHeadscaleFieldB
    compat_headscaleField goodVal_headscaleField o bk ho hb

/-! ### integration.docker / kubernetes / proc -/

def overlayDockerFieldB (k : String) (v : JValue) : Bool :=
  if k == "enabled" then isBoolV v
  else if k == "container_name" then isStrV v
  else if k == "socket" then isStrV v
  else if k == "container_label" then objShapeB overlayLabelFieldB v
  else GoodValB v

def baseDockerFieldB (k : String) (v : JValue) : Bool :=
  if k == "enabled" then isBoolV v
  else if k == "container_name" then isStrV v
  else if k == "socket" then isStrV v
  else if k == "container_label" then objShapeB baseLabelFieldB v
  else false

theorem goodVal_dockerField (k : String) (v : JValue)
    (h : overlayDockerFieldB k v = true) : GoodValB v = true := by
  by_cases h1 : k = "enabled"
  · simp [overlayDockerFieldB, h1] at h
    exact goodVal_prim v (by simp [h])
  by_cases h2 : k = "container_name"
  · simp [overlayDockerFieldB, h1, h2] at h
    exact goodVal_prim v (by simp [h])
  by_cases h3 : k = "socket"
  · simp [overlayDockerFieldB, h1, h2, h3] at h
    exact goodVal_prim v (by simp [h])
  by_cases h4 : k = "container_label"
  · simp [overlayDockerFieldB, h1, h2, h3, h4] at h
    exact goodVal_of_objShape overlayLabelFieldB goodVal_labelField v h
  · simpa [overlayDockerFieldB, h1, h2, h3, h4] using h

theorem compat_dockerField (k : String) (v : JValue) (bk : Option JValue)
    (ho : overlayDockerFieldB k v = true)
    (hb : ∀ w, bk = some w → baseDockerFieldB k w = true) :
    Compat bk v = true := by
  by_cases h1 : k = "enabled"
  · simp [overlayDockerFieldB, h1] at ho
    exact compat_prim bk v (by simp [ho])
  by_cases h2 : k = "container_name"
  · simp [overlayDockerFieldB, h1, h2] at ho
    exact compat_prim bk v (by simp [ho])
  by_cases h3 : k = "socket"
  · simp [overlayDockerFieldB, h1, h2, h3] at ho
    exact compat_prim bk v (by simp [ho])
  by_cases h4 : k = "container_label"
  · simp [overlayDockerFieldB, h1, h2, h3, h4] at ho
    refine compat_label v bk ho ?_
    intro w hw
    have hbw := hb w hw
    simpa [baseDockerFieldB, h1, h2, h3, h4] using hbw
  · simp [overlayDockerFieldB, h1, h2, h3, h4] at ho
    refine compat_undeclared bk v (by simp [ho]) ?_
    cases bk with
    | none => rfl
    | some w =>
        have hbw := hb w rfl
        simp [baseDockerFieldB, h1, h2, h3, h4] at hbw

theorem compat_docker (o : JValue) (bk : Option JValue)
    (ho : objShapeB overlayDockerFieldB o = true)
    (hb : ∀ w, bk = some w → objShapeB baseDockerFieldB w = true) :
    Compat bk o = true :=
  compat_section overlayDockerFieldB baseDockerFieldB compat_dockerField
    goodVal_dockerField o bk ho hb

def overlayKubernetesFieldB (k : String) (v : JValue) : Bool :=
  if k == "enabled" then isBoolV v
  else if k == "pod_name" then isStrV v
  else if k == "validate_manifest" then isBoolV v
  else GoodValB v

def baseKubernetesFieldB (k : String) (v : JValue) : Bool :=
  if k == "enabled" then isBoolV v
  else if k == "pod_name" then isStrV v
  else if k == "validate_manifest" then isBoolV v
  else false

theorem goodVal_kubernetesField (k : String) (v : JValue)
    (h : overlayKubernetesFieldB k v = true) : GoodValB v = true := by
  by_cases h1 : k = "enabled"
  · simp [overlayKubernetesFieldB, h1] at h
    exact goodVal_prim v (by simp [h])
  by_cases h2 : k = "pod_name"
  · simp [overlayKubernetesFieldB, h1, h2] at h
    exact goodVal_prim v (by simp [h])
  by_cases h3 : k = "validate_manifest"
  · simp [overlayKubernetesFieldB, h1, h2, h3] at h
    exact goodVal_prim v (by simp [h])
  · simpa [overlayKubernetesFieldB, h1, h2, h3] using h

theorem compat_kubernetesField (k : String) (v : JValue) (bk : Option JValue)
    (ho : overlayKubernetesFieldB k v = true)
    (hb : ∀ w, bk = some w → baseKubernetesFieldB k w = true) :
    Compat bk v = true := by
  by_cases h1 : k = "enabled"
  · simp [overlayKubernetesFieldB, h1] at ho
    exact compat_prim bk v (by simp [ho])
  by_cases h2 : k = "pod_name"
  · simp [overlayKubernetesFieldB, h1, h2] at ho
    exact compat_prim bk v (by simp [ho])
  by_cases h3 : k = "validate_manifest"
  · simp [overlayKubernetesFieldB, h1, h2, h3] at ho
    exact compat_prim bk v (by simp [ho])
  · simp [overlayKubernetesFieldB, h1, h2, h3] at ho
    refine compat_undeclared bk v (by simp [ho]) ?_
    cases bk with
    | none => rfl
    | some w =>
        have hbw := hb w rfl
        simp [baseKubernetesFieldB, h1, h2, h3] at hbw

theorem compat_kubernetes (o : JValue) (bk : Option JValue)
    (ho : objShapeB overlayKubernetesFieldB o = true)
    (hb : ∀ w, bk = some w → objShapeB baseKubernetesFieldB w = true) :
    Compat bk o = true :=
  compat_section overlayKubernetesFieldB baseKubernetesFieldB
    compat_kubernetesField goodVal_kubernetesField o bk ho hb

def overlayProcFieldB (k : String) (v : JValue) : Bool :=
  if k == "enabled" then isBoolV v
  else GoodValB v

def baseProcFieldB (k : String) (v : JValue) : Bool :=
  if k == "enabled" then isBoolV v
  else false

theorem goodVal_procField (k : String) (v : JValue)
    (h : overlayProcFieldB k v = true) : GoodValB v = true := by
  by_cases h1 : k = "enabled"
  · simp [overlayProcFieldB, h1] at h
    exact goodVal_prim v (by simp [h])
  · simpa [overlayProcFieldB, h1] using h

theorem compat_procField (k : String) (v : JValue) (bk : Option JValue)
    (ho : overlayProcFieldB k v = true)
    (hb : ∀ w, bk = some w → baseProcFieldB k w = true) :
    Compat bk v = true := by
  by_cases h1 : k = "enabled"
  · simp [overlayProcFieldB, h1] at ho
    exact compat_prim bk v (by simp [ho])
  · simp [overlayProcFieldB, h1] at ho
    refine compat_undeclared bk v (by simp [ho]) ?_
    cases bk with
    | none => rfl
    | some w =>
        have hbw := hb w rfl
        simp [baseProcFieldB, h1] at hbw

theorem compat_proc (o : JValue) (bk : Option JValue)
    (ho : objShapeB overlayProcFieldB o = true)
    (hb : ∀ w, bk = some w → objShapeB baseProcFieldB w = true) :
    Compat bk o = true :=
  compat_section overlayProcFieldB baseProcFieldB compat_procField
    goodVal_procField o bk ho hb

/-! ### integration -/

def overlayIntegrationFieldB (k : String) (v : JValue) : Bool :=
  if k == "docker" then objShapeB overlayDockerFieldB v
  else if k == "kubernetes" then objShapeB overlayKubernetesFieldB v
  else if k == "proc" then objShapeB overlayProcFieldB v
  else GoodValB v

def baseIntegrationFieldB (k : String) (v : JValue) : Bool :=
  if k == "docker" then objShapeB baseDockerFieldB v
  else if k == "kubernetes" then objShapeB baseKubernetesFieldB v
  else if k == "proc" then objShapeB baseProcFieldB v
  else false

theorem goodVal_integrationField (k : String) (v : JValue)
    (h : overlayIntegrationFieldB k v = true) : GoodValB v = true := by
  by_cases h1 : k = "docker"
  · simp [overlayIntegrationFieldB, h1] at h
    exact goodVal_of_objShape overlayDockerFieldB goodVal_dockerField v h
  by_cases h2 : k = "kubernetes"
  · simp [overlayIntegrationFieldB, h1, h2] at h
    exact goodVal_of_objShape overlayKubernetesFieldB goodVal_kubernetesField v h
  by_cases h3 : k = "proc"
  · simp [overlayIntegrationFieldB, h1, h2, h3] at h
    exact goodVal_of_objShape overlayProcFieldB goodVal_procField v h
  · simpa [overlayIntegrationFieldB, h1, h2, h3] using h

theorem compat_integrationField (k : String) (v : JValue) (bk : Option JValue)
    (ho : overlayIntegrationFieldB k v = true)
    (hb : ∀ w, bk = some w → baseIntegrationFieldB k w = true) :
    Compat bk v = true := by
  by_cases h1 : k = "docker"
  · simp [overlayIntegrationFieldB, h1] at ho
    refine compat_docker v bk ho ?_
    intro w hw
    have hbw := hb w hw
    simpa [baseIntegrationFieldB, h1] using hbw
  by_cases h2 : k = "kubernetes"
  · simp [overlayIntegrationFieldB, h1, h2] at ho
    refine compat_kubernetes v bk ho ?_
    intro w hw
    have hbw := hb w hw
    simpa [baseIntegrationFieldB, h1, h2] using hbw
  by_cases h3 : k = "proc"
  · simp [overlayIntegrationFieldB, h1, h2, h3] at ho
    refine compat_proc v bk ho ?_
    intro w hw
    have hbw := hb w hw
    simpa [baseIntegrationFieldB, h1, h2, h3] using hbw
  · simp [overlayIntegrationFieldB, h1, h2, h3] at ho
    refine compat_undeclared bk v (by simp [ho]) ?_
    cases bk with
    | none => rfl
    | some w =>
        have hbw := hb w rfl
        simp [baseIntegrationFieldB, h1, h2, h3] at hbw

theorem compat_integration (o : JValue) (bk : Option JValue)
    (ho : objShapeB overlayIntegrationFieldB o = true)
    (hb : ∀ w, bk = some w → objShapeB baseIntegrationFieldB w = true) :
    Compat bk o = true :=
  compat_section overlayIntegrationFieldB baseIntegrationFieldB
    compat_integrationField goodVal_integrationField o bk ho hb

/-! ### document root -/

def overlayRootFieldB (k : String) (v : JValue) : Bool :=
  if k == "debug" then isBoolV v
  else if k == "server" then objShapeB overlayServerFieldB v
  else if k == "oidc" then objShapeB overlayOidcFieldB v
  else if k == "integration" then objShapeB overlayIntegrationFieldB v
  else if k == "headscale" then objShapeB overlayHeadscaleFieldB v
  else GoodValB v || isUndefV v

def baseRootFieldB (k : String) (v : JValue) : Bool :=
  if k == "debug" then isBoolV v
  else if k == "server" then objShapeB baseServerFieldB v
  else if k == "oidc" then objShapeB baseOidcFieldB v
  else if k == "integration" then objShapeB baseIntegrationFieldB v
  else if k == "headscale" then objShapeB baseHeadscaleFieldB v
  else false

/-- Shape of a fully-validated document whose secret resolution actually
resolved each set secret path: only declared keys at every level, with the
value kinds the full validators produce and the secret-capable inline
fields holding strings.  Validated documents whose `cookie_secret_path` or
`client_secret_path` is the empty string are excluded: there resolution is
skipped and the inline field stays `null` (the C2 counterexample's base). -/
def FullShapeB : JValue → Bool := objShapeB baseRootFieldB

/-- Shape of a partial-schema (override) validation output: declared keys
with their morphed value kinds, plus verbatim-kept undeclared values free of
explicit `undefined` fields and duplicate keys. -/
def OverlayShapeB : JValue → Bool := objShapeB overlayRootFieldB

theorem compat_rootField (k : String) (v : JValue) (bk : Option JValue)
    (ho : overlayRootFieldB k v = true)
    (hb : ∀ w, bk = some w → baseRootFieldB k w = true) :
    Compat bk v = true := by
  by_cases h1 : k = "debug"
  · simp [overlayRootFieldB, h1] at ho
    exact compat_prim bk v (by simp [ho])
  by_cases h2 : k = "server"
  · simp [overlayRootFieldB, h1, h2] at ho
    refine compat_server v bk ho ?_
    intro w hw
    have hbw := hb w hw
    simpa [baseRootFieldB, h1, h2] using hbw
  by_cases h3 : k = "oidc"
  · simp [overlayRootFieldB, h1, h2, h3] at ho
    refine compat_oidc v bk ho ?_
    intro w hw
    have hbw := hb w hw
    simpa [baseRootFieldB, h1, h2, h3] using hbw
  by_cases h4 : k = "integration"
  · simp [overlayRootFieldB, h1, h2, h3, h4] at ho
    refine compat_integration v bk ho ?_
    intro w hw
    have hbw := hb w hw
    simpa [baseRootFieldB, h1, h2, h3, h4] using hbw
  by_cases h5 : k = "headscale"
  · simp [overlayRootFieldB, h1, h2, h3, h4, h5] at ho
    refine compat_headscale v bk ho ?_
    intro w hw
    have hbw := hb w hw
    simpa [baseRootFieldB, h1, h2, h3, h4, h5] using hbw
  · simp only [overlayRootFieldB, beq_iff_eq, h1, h2, h3, h4, h5,
      if_false] at ho
    refine compat_undeclared bk v ho ?_
    cases bk with
    | none => rfl
    | some w =>
        have hbw := hb w rfl
        simp [baseRootFieldB, h1, h2, h3, h4, h5] at hbw

/-! ## Lemmas about the env-override assignment walk (C5) -/

theorem getPath_nil_obj (q : List String) (hq : q ≠ []) :
    getPath (.obj []) q = none := by
  cases q with
  | nil => exact absurd rfl hq
  | cons qh qt => simp [getPath, getKey]

theorem getPath_cons_some (fs : List (String × JValue)) (k : String)
    (rest : List String) (w0 : JValue) (h : getKey fs k = some w0) :
    getPath (.obj fs) (k :: rest) = getPath w0 rest := by
  simp only [getPath, h]

theorem insertPath_nil (fs : List (String × JValue)) (v : String) :
    insertPath fs [] v = none := rfl

theorem insertPath_one (fs : List (String × JValue)) (seg : String)
    (v : String) : insertPath fs [seg] v = some (setKey fs seg (.str v)) := rfl

theorem insertPath_cons2 (fs : List (String × JValue)) (seg s2 : String)
    (rest : List String) (v : String) :
    insertPath fs (seg :: s2 :: rest) v =
      match getKey fs seg with
      | none =>
          (insertPath [] (s2 :: rest) v).map
            (fun inner => setKey fs seg (.obj inner))
      | some (.obj inner) =>
          (insertPath inner (s2 :: rest) v).map
            (fun inner2 => setKey fs seg (.obj inner2))
      | some _ => none := rfl

theorem insertPath_cons2_none (fs : List (String × JValue)) (seg s2 : String)
    (rest : List String) (v : String) (h : getKey fs seg = none) :
    insertPath fs (seg :: s2 :: rest) v =
      (insertPath [] (s2 :: rest) v).map
        (fun inner => setKey fs seg (.obj inner)) := by
  rw [insertPath_cons2, h]

theorem insertPath_cons2_obj (fs : List (String × JValue)) (seg s2 : String)
    (rest : List String) (v : String) (innerOld : List (String × JValue))
    (h : getKey fs seg = some (.obj innerOld)) :
    insertPath fs (seg :: s2 :: rest) v =
      (insertPath innerOld (s2 :: rest) v).map
        (fun inner2 => setKey fs seg (.obj inner2)) := by
  rw [insertPath_cons2, h]

theorem insertPath_getPath_self : ∀ (p : List String)
    (fs : List (String × JValue)) (v : String) (fs2 : List (String × JValue)),
    insertPath fs p v = some fs2 → getPath (.obj fs2) p = some (.str v)
  | [], fs, v, fs2, h => by simp [insertPath_nil] at h
  | [seg], fs, v, fs2, h => by
      rw [insertPath_one] at h
      injection h with h
      subst h
      simp [getPath, getKey_setKey_self]
  | seg :: s2 :: rest, fs, v, fs2, h => by
      cases hgk : getKey fs seg with
      | none =>
          rw [insertPath_cons2_none fs seg s2 rest v hgk] at h
          cases hin : insertPath [] (s2 :: rest) v with
          | none => rw [hin] at h; simp at h
          | some inner =>
              rw [hin] at h
              have h2 : fs2 = setKey fs seg (.obj inner) := by
                simpa using h.symm
              subst h2
              simp only [getPath, getKey_setKey_self]
              exact insertPath_getPath_self (s2 :: rest) [] v inner hin
      | some w =>
          cases w with
          | obj innerOld =>
              rw [insertPath_cons2_obj fs seg s2 rest v innerOld hgk] at h
              cases hin : insertPath innerOld (s2 :: rest) v with
              | none => rw [hin] at h; simp at h
              | some inner2 =>
                  rw [hin] at h
                  have h2 : fs2 = setKey fs seg (.obj inner2) := by
                    simpa using h.symm
                  subst h2
                  simp only [getPath, getKey_setKey_self]
                  exact insertPath_getPath_self (s2 :: rest) innerOld v inner2 hin
          | str s => rw [insertPath_cons2, hgk] at h; simp at h
          | num n => rw [insertPath_cons2, hgk] at h; simp at h
          | nan => rw [insertPath_cons2, hgk] at h; simp at h
          | bool b => rw [insertPath_cons2, hgk] at h; simp at h
          | null => rw [insertPath_cons2, hgk] at h; simp at h
          | undef => rw [insertPath_cons2, hgk] at h; simp at h
          | arr xs => rw [insertPath_cons2, hgk] at h; simp at h

theorem insertPath_getPath_frame : ∀ (p : List String)
    (fs : List (String × JValue)) (v : String) (fs2 : List (String × JValue))
    (q : List String), insertPath fs p v = some fs2 → ¬ p <+: q →
    ¬ q <+: p → getPath (.obj fs2) q = getPath (.obj fs) q
  | [], fs, v, fs2, q, h, _, _ => by simp [insertPath_nil] at h
  | [seg], fs, v, fs2, q, h, hpq, hqp => by
      rw [insertPath_one] at h
      injection h with h
      subst h
      cases q with
      | nil => exact absurd (List.nil_prefix) hqp
      | cons qh qt =>
          by_cases hqh : qh = seg
          · subst hqh
            exact absurd (by simp [List.cons_prefix_cons, List.nil_prefix]) hpq
          · simp only [getPath]
            rw [getKey_setKey_ne fs seg qh _ (fun h2 => hqh h2.symm)]
  | seg :: s2 :: rest, fs, v, fs2, q, h, hpq, hqp => by
      cases q with
      | nil => exact absurd (List.nil_prefix) hqp
      | cons qh qt =>
          by_cases hqh : qh = seg
          · subst hqh
            have hqt_pre : ¬ (s2 :: rest) <+: qt := by
              intro h2
              exact hpq (by simp [List.cons_prefix_cons, h2])
            have hpre_qt : ¬ qt <+: (s2 :: rest) := by
              intro h2
              exact hqp (by simp [List.cons_prefix_cons, h2])
            have hqtne : qt ≠ [] := by
              intro h2
              subst h2
              exact hpre_qt (List.nil_prefix)
            cases hgk : getKey fs qh with
            | none =>
                rw [insertPath_cons2_none fs qh s2 rest v hgk] at h
                cases hin : insertPath [] (s2 :: rest) v with
                | none => rw [hin] at h; simp at h
                | some inner =>
                    rw [hin] at h
                    have h2 : fs2 = setKey fs qh (.obj inner) := by
                      simpa using h.symm
                    subst h2
                    simp only [getPath, getKey_setKey_self, hgk]
                    rw [insertPath_getPath_frame (s2 :: rest) [] v inner qt hin
                      hqt_pre hpre_qt]
                    exact getPath_nil_obj qt hqtne
            | some w =>
                cases w with
                | obj innerOld =>
                    rw [insertPath_cons2_obj fs qh s2 rest v innerOld hgk] at h
                    cases hin : insertPath innerOld (s2 :: rest) v with
                    | none => rw [hin] at h; simp at h
                    | some inner2 =>
                        rw [hin] at h
                        have h2 : fs2 = setKey fs qh (.obj inner2) := by
                          simpa using h.symm
                        subst h2
                        simp only [getPath, getKey_setKey_self, hgk]
                        exact insertPath_getPath_frame (s2 :: rest) innerOld v
                          inner2 qt hin hqt_pre hpre_qt
                | str s => rw [insertPath_cons2, hgk] at h; simp at h
                | num n => rw [insertPath_cons2, hgk] at h; simp at h
                | nan => rw [insertPath_cons2, hgk] at h; simp at h
                | bool b => rw [insertPath_cons2, hgk] at h; simp at h
                | null => rw [insertPath_cons2, hgk] at h; simp at h
                | undef => rw [insertPath_cons2, hgk] at h; simp at h
                | arr xs => rw [insertPath_cons2, hgk] at h; simp at h
          · have hfs2 : ∃ x, fs2 = setKey fs seg x := by
              cases hgk : getKey fs seg with
              | none =>
                  rw [insertPath_cons2_none fs seg s2 rest v hgk] at h
                  cases hin : insertPath [] (s2 :: rest) v with
                  | none => rw [hin] at h; simp at h
                  | some inner =>
                      rw [hin] at h
                      exact ⟨.obj inner, by simpa using h.symm⟩
              | some w =>
                  cases w with
                  | obj innerOld =>
                      rw [insertPath_cons2_obj fs seg s2 rest v innerOld hgk] at h
                      cases hin : insertPath innerOld (s2 :: rest) v with
                      | none => rw [hin] at h; simp at h
                      | some inner2 =>
                          rw [hin] at h
                          exact ⟨.obj inner2, by simpa using h.symm⟩
                  | str s => rw [insertPath_cons2, hgk] at h; simp at h
                  | num n => rw [insertPath_cons2, hgk] at h; simp at h
                  | nan => rw [insertPath_cons2, hgk] at h; simp at h
                  | bool b => rw [insertPath_cons2, hgk] at h; simp at h
                  | null => rw [insertPath_cons2, hgk] at h; simp at h
                  | undef => rw [insertPath_cons2, hgk] at h; simp at h
                  | arr xs => rw [insertPath_cons2, hgk] at h; simp at h
            obtain ⟨x, hx⟩ := hfs2
            subst hx
            simp only [getPath]
            rw [getKey_setKey_ne fs seg qh x (fun h3 => hqh h3.symm)]

theorem insertPath_succeeds : ∀ (p : List String)
    (fs : List (String × JValue)) (v : String), p ≠ [] →
    (∀ q w, q ≠ [] → q <+: p → q ≠ p → getPath (.obj fs) q = some w →
      isObjV w = true) →
    ∃ fs2, insertPath fs p v = some fs2
  | [], fs, v, hne, _ => absurd rfl hne
  | [seg], fs, v, _, _ => ⟨setKey fs seg (.str v), insertPath_one fs seg v⟩
  | seg :: s2 :: rest, fs, v, _, hpre => by
      cases hgk : getKey fs seg with
      | none =>
          obtain ⟨inner, hin⟩ := insertPath_succeeds (s2 :: rest) [] v
            (by simp)
            (fun q w hq _ _ hg => absurd hg (by simp [getPath_nil_obj q hq]))
          exact ⟨setKey fs seg (.obj inner), by
            rw [insertPath_cons2_none fs seg s2 rest v hgk, hin]; rfl⟩
      | some w =>
          have hw : isObjV w = true := by
            refine hpre [seg] w (by simp) ?_ (by simp) ?_
            · simp [List.cons_prefix_cons, List.nil_prefix]
            · simp [getPath, hgk]
          cases w with
          | obj innerOld =>
              obtain ⟨inner2, hin⟩ := insertPath_succeeds (s2 :: rest)
                innerOld v (by simp)
                (fun q w2 hq hqpre hqne hg => by
                  refine hpre (seg :: q) w2 (by simp) ?_ ?_ ?_
                  · simp [List.cons_prefix_cons, hqpre]
                  · simp [hqne]
                  · simp [getPath, hgk, hg])
              exact ⟨setKey fs seg (.obj inner2), by
                rw [insertPath_cons2_obj fs seg s2 rest v innerOld hgk, hin]; rfl⟩
          | str s => simp [isObjV] at hw
          | num n => simp [isObjV] at hw
          | nan => simp [isObjV] at hw
          | bool b => simp [isObjV] at hw
          | null => simp [isObjV] at hw
          | undef => simp [isObjV] at hw
          | arr xs => simp [isObjV] at hw

theorem insertPath_nonobj : ∀ (p : List String)
    (fs : List (String × JValue)) (v : String) (fs2 : List (String × JValue))
    (q : List String) (w : JValue), insertPath fs p v = some fs2 →
    getPath (.obj fs2) q = some w → isObjV w = false →
    (q = p ∧ w = .str v) ∨ getPath (.obj fs) q = some w
  | [], fs, v, fs2, q, w, h, _, _ => by simp [insertPath_nil] at h
  | [seg], fs, v, fs2, q, w, h, hg, hnw => by
      rw [insertPath_one] at h
      injection h with h
      subst h
      cases q with
      | nil =>
          simp only [getPath] at hg
          injection hg with hg
          rw [← hg] at hnw
          simp [isObjV] at hnw
      | cons qh qt =>
          by_cases hqh : qh = seg
          · subst hqh
            simp only [getPath, getKey_setKey_self] at hg
            cases qt with
            | nil =>
                simp only [getPath] at hg
                injection hg with hg
                exact Or.inl ⟨rfl, hg.symm⟩
            | cons q2 qt2 => simp [getPath] at hg
          · simp only [getPath] at hg
            rw [getKey_setKey_ne fs seg qh _ (fun h3 => hqh h3.symm)] at hg
            exact Or.inr (by simp [getPath, hg])
  | seg :: s2 :: rest, fs, v, fs2, q, w, h, hg, hnw => by
      cases q with
      | nil =>
          simp only [getPath] at hg
          injection hg with hg
          rw [← hg] at hnw
          simp [isObjV] at hnw
      | cons qh qt =>
          by_cases hqh : qh = seg
          · subst hqh
            cases hgk : getKey fs qh with
            | none =>
                rw [insertPath_cons2_none fs qh s2 rest v hgk] at h
                cases hin : insertPath [] (s2 :: rest) v with
                | none => rw [hin] at h; simp at h
                | some inner =>
                    rw [hin] at h
                    have h2 : fs2 = setKey fs qh (.obj inner) := by
                      simpa using h.symm
                    subst h2
                    simp only [getPath, getKey_setKey_self] at hg
                    cases qt with
                    | nil =>
                        simp only [getPath] at hg
                        injection hg with hg
                        rw [← hg] at hnw
                        simp [isObjV] at hnw
                    | cons q2 qt2 =>
                        rcases insertPath_nonobj (s2 :: rest) [] v inner
                            (q2 :: qt2) w hin hg hnw with h3 | h3
                        · exact Or.inl ⟨by rw [h3.1], h3.2⟩
                        · rw [getPath_nil_obj (q2 :: qt2) (by simp)] at h3
                          cases h3
            | some w0 =>
                cases w0 with
                | obj innerOld =>
                    rw [insertPath_cons2_obj fs qh s2 rest v innerOld hgk] at h
                    cases hin : insertPath innerOld (s2 :: rest) v with
                    | none => rw [hin] at h; simp at h
                    | some inner2 =>
                        rw [hin] at h
                        have h2 : fs2 = setKey fs qh (.obj inner2) := by
                          simpa using h.symm
                        subst h2
                        simp only [getPath, getKey_setKey_self] at hg
                        cases qt with
                        | nil =>
                            simp only [getPath] at hg
                            injection hg with hg
                            rw [← hg] at hnw
                            simp [isObjV] at hnw
                        | cons q2 qt2 =>
                            rcases insertPath_nonobj (s2 :: rest) innerOld v
                                inner2 (q2 :: qt2) w hin hg hnw with h3 | h3
                            · exact Or.inl ⟨by rw [h3.1], h3.2⟩
                            · exact Or.inr (by
                                rw [getPath_cons_some fs qh (q2 :: qt2)
                                  (.obj innerOld) hgk]
                                exact h3)
                | str s => rw [insertPath_cons2, hgk] at h; simp at h
                | num n => rw [insertPath_cons2, hgk] at h; simp at h
                | nan => rw [insertPath_cons2, hgk] at h; simp at h
                | bool b => rw [insertPath_cons2, hgk] at h; simp at h
                | null => rw [insertPath_cons2, hgk] at h; simp at h
                | undef => rw [insertPath_cons2, hgk] at h; simp at h
                | arr xs => rw [insertPath_cons2, hgk] at h; simp at h
          · have hfs2 : ∃ x, fs2 = setKey fs seg x := by
              cases hgk : getKey fs seg with
              | none =>
                  rw [insertPath_cons2_none fs seg s2 rest v hgk] at h
                  cases hin : insertPath [] (s2 :: rest) v with
                  | none => rw [hin] at h; simp at h
                  | some inner =>
                      rw [hin] at h
                      exact ⟨.obj inner, by simpa using h.symm⟩
              | some w0 =>
                  cases w0 with
                  | obj innerOld =>
                      rw [insertPath_cons2_obj fs seg s2 rest v innerOld hgk] at h
                      cases hin : insertPath innerOld (s2 :: rest) v with
                      | none => rw [hin] at h; simp at h
                      | some inner2 =>
                          rw [hin] at h
                          exact ⟨.obj inner2, by simpa using h.symm⟩
                  | str s => rw [insertPath_cons2, hgk] at h; simp at h
                  | num n => rw [insertPath_cons2, hgk] at h; simp at h
                  | nan => rw [insertPath_cons2, hgk] at h; simp at h
                  | bool b => rw [insertPath_cons2, hgk] at h; simp at h
                  | null => rw [insertPath_cons2, hgk] at h; simp at h
                  | undef => rw [insertPath_cons2, hgk] at h; simp at h
                  | arr xs => rw [insertPath_cons2, hgk] at h; simp at h
            obtain ⟨x, hx⟩ := hfs2
            subst hx
            simp only [getPath] at hg
            rw [getKey_setKey_ne fs seg qh x (fun h3 => hqh h3.symm)] at hg
            exact Or.inr (by simp [getPath, hg])

theorem splitDunder_ne_nil (l : List Char) : splitDunder l ≠ [] := by
  induction l using splitDunder.induct <;>
    · rw [splitDunder.eq_def]
      split <;> try split
      all_goals simp

theorem decodeEnvKey_ne_nil (k : String) : decodeEnvKey k ≠ [] := by
  simp only [decodeEnvKey, ne_eq, List.map_eq_nil_iff]
  exact splitDunder_ne_nil _

/-- Two config paths neither of which is a prefix of the other (so the
assignments they describe cannot interfere). -/
def PathRel (p q : List String) : Prop := ¬ p <+: q ∧ ¬ q <+: p

/-- The decoded paths of the kept environment entries are pairwise
non-interfering.  (Colliding or prefix-related environment keys make the
result depend on enumeration order or crash the walk; the spec leaves that
case unspecified (design note on duplicate leaf assignments), and the claim
speaks of the ordinary non-colliding case.) -/
def EnvPathsIndep (env : List (String × String)) (rootKeys : List String) :
    Prop :=
  ((env.filter (keepEnvEntry rootKeys)).map
    (fun kv => decodeEnvKey kv.1)).Pairwise PathRel

instance (p q : List String) : Decidable (PathRel p q) := by
  unfold PathRel
  infer_instance

instance (env : List (String × String)) (rootKeys : List String) :
    Decidable (EnvPathsIndep env rootKeys) := by
  unfold EnvPathsIndep
  infer_instance

/-- The env override object is built from exactly the kept entries: every
kept entry's raw string value sits at its decoded path, and every non-object
node of the built object is the value of some kept entry at its decoded
path. -/
theorem buildEnvConfig_spec (rootKeys : List String) :
    ∀ env : List (String × String), EnvPathsIndep env rootKeys →
    ∃ fs, buildEnvConfig env rootKeys = some fs ∧
      (∀ kv, kv ∈ env → keepEnvEntry rootKeys kv = true →
        getPath (.obj fs) (decodeEnvKey kv.1) = some (.str kv.2)) ∧
      (∀ q w, getPath (.obj fs) q = some w → isObjV w = false →
        ∃ kv, kv ∈ env ∧ keepEnvEntry rootKeys kv = true ∧
          q = decodeEnvKey kv.1 ∧ w = .str kv.2) := by
  intro env
  induction env using List.reverseRecOn with
  | nil =>
      intro _
      refine ⟨[], rfl, ?_, ?_⟩
      · intro kv hm
        cases hm
      · intro q w hg hnw
        cases q with
        | nil =>
            simp only [getPath] at hg
            injection hg with hg
            rw [← hg] at hnw
            simp [isObjV] at hnw
        | cons qh qt => simp [getPath, getKey] at hg
  | append_singleton env kv0 ih =>
      intro hind
      have hfilter : (env ++ [kv0]).filter (keepEnvEntry rootKeys) =
          env.filter (keepEnvEntry rootKeys) ++
            [kv0].filter (keepEnvEntry rootKeys) :=
        List.filter_append env [kv0]
      have hindmap : EnvPathsIndep env rootKeys ∧
          (∀ p, p ∈ (env.filter (keepEnvEntry rootKeys)).map
              (fun kv => decodeEnvKey kv.1) →
            ∀ p0, p0 ∈ ([kv0].filter (keepEnvEntry rootKeys)).map
              (fun kv => decodeEnvKey kv.1) → PathRel p p0) := by
        have := hind
        unfold EnvPathsIndep at this
        rw [hfilter, List.map_append] at this
        rw [List.pairwise_append] at this
        exact ⟨this.1, this.2.2⟩
      obtain ⟨fs, hbuild, hmem, hinv⟩ := ih hindmap.1
      by_cases hk : keepEnvEntry rootKeys kv0 = true
      · have hfilter2 : (env ++ [kv0]).filter (keepEnvEntry rootKeys) =
            env.filter (keepEnvEntry rootKeys) ++ [kv0] := by
          rw [hfilter, List.filter_singleton, hk]
          rfl
        have hrel : ∀ kv, kv ∈ env → keepEnvEntry rootKeys kv = true →
            PathRel (decodeEnvKey kv.1) (decodeEnvKey kv0.1) := by
          intro kv hm hkeep
          refine hindmap.2 (decodeEnvKey kv.1) ?_ (decodeEnvKey kv0.1) ?_
          · exact List.mem_map_of_mem _ (List.mem_filter.mpr ⟨hm, hkeep⟩)
          · simp [List.filter_singleton, hk]
        have hsucc : ∃ fs2, insertPath fs (decodeEnvKey kv0.1) kv0.2 =
            some fs2 := by
          refine insertPath_succeeds (decodeEnvKey kv0.1) fs kv0.2
            (decodeEnvKey_ne_nil kv0.1) ?_
          intro q w hq hqpre hqne hg
          by_contra hno
          have hnw : isObjV w = false := by
            cases hw : isObjV w
            · rfl
            · exact absurd hw hno
          obtain ⟨kv, hkvmem, hkvkeep, hkvq, _⟩ := hinv q w hg hnw
          have := hrel kv hkvmem hkvkeep
          rw [← hkvq] at this
          exact this.1 hqpre
        obtain ⟨fs2, hins⟩ := hsucc
        have hbuild2 : buildEnvConfig (env ++ [kv0]) rootKeys = some fs2 := by
          unfold buildEnvConfig
          rw [hfilter2, List.foldlM_append]
          unfold buildEnvConfig at hbuild
          rw [hbuild]
          simp [hins]
        refine ⟨fs2, hbuild2, ?_, ?_⟩
        · intro kv hm hkeep
          rcases List.mem_append.mp hm with hm | hm
          · have hpr := hrel kv hm hkeep
            rw [insertPath_getPath_frame (decodeEnvKey kv0.1) fs kv0.2 fs2
              (decodeEnvKey kv.1) hins hpr.2 hpr.1]
            exact hmem kv hm hkeep
          · have : kv = kv0 := by simpa using hm
            subst this
            exact insertPath_getPath_self (decodeEnvKey kv.1) fs kv.2 fs2 hins
        · intro q w hg hnw
          rcases insertPath_nonobj (decodeEnvKey kv0.1) fs kv0.2 fs2 q w
              hins hg hnw with h3 | h3
          · exact ⟨kv0, by simp, hk, h3.1, h3.2⟩
          · obtain ⟨kv, hkvmem, hkvkeep, hkvq, hkvw⟩ := hinv q w h3 hnw
            exact ⟨kv, List.mem_append_left _ hkvmem, hkvkeep, hkvq, hkvw⟩
      · have hfilter2 : (env ++ [kv0]).filter (keepEnvEntry rootKeys) =
            env.filter (keepEnvEntry rootKeys) := by
          rw [hfilter, List.filter_singleton]
          cases hkk : keepEnvEntry rootKeys kv0 with
          | false => simp
          | true => exact absurd hkk hk
        have hbuild2 : buildEnvConfig (env ++ [kv0]) rootKeys = some fs := by
          unfold buildEnvConfig
          rw [hfilter2]
          exact hbuild
        refine ⟨fs, hbuild2, ?_, ?_⟩
        · intro kv hm hkeep
          rcases List.mem_append.mp hm with hm | hm
          · exact hmem kv hm hkeep
          · have : kv = kv0 := by simpa using hm
            subst this
            exact absurd hkeep hk
        · intro q w hg hnw
          obtain ⟨kv, hkvmem, hkvkeep, hkvq, hkvw⟩ := hinv q w hg hnw
          exact ⟨kv, List.mem_append_left _ hkvmem, hkvkeep, hkvq, hkvw⟩

/-- Claim C2 (amended): the original universal claim is false — on the
reachable base with `cookie_secret: null` left by an empty secret path
(see `deepMerge_null_on_null_not_overwrite`), a `null` override value takes
`deepMerge`'s `typeof`-object branch against the `null` base value and
produces `{}` instead of overwriting outright.  Amended claim: for every
base document whose secret-capable inline fields hold resolved secret
strings (`FullShapeB`, which excludes the empty-path survivors) and every
validated override fragment (`OverlayShapeB`), `deepMerge` behaves as the
claim describes — nested objects merge recursively into the possibly-absent
base value, arrays and primitives (and `null`) overwrite outright,
`undefined` values leave the base value, base-only keys are retained —
stated as agreement with `claimMerge`, the merge written from the claim's
words.  (On such pairs an array or `null` override value only ever meets an
absent or primitive base slot, so the code's `typeof`-object recursion
coincides with outright overwriting.) -/
theorem deepMerge_agrees (b o : JValue) (hb : FullShapeB b = true)
    (ho : OverlayShapeB o = true) : deepMerge b o = claimMerge b o := by
  have hc : Compat (some b) o = true := by
    cases b with
    | obj bfs =>
        cases o with
        | obj ofs =>
            simp only [FullShapeB, OverlayShapeB, objShapeB,
              Bool.and_eq_true] at hb ho
            simp only [Compat, Bool.and_eq_true]
            exact ⟨ho.1, compatFields_of overlayRootFieldB baseRootFieldB
              compat_rootField ofs bfs ho.2 hb.2⟩
        | str s => simp [OverlayShapeB, objShapeB] at ho
        | num n => simp [OverlayShapeB, objShapeB] at ho
        | nan => simp [OverlayShapeB, objShapeB] at ho
        | bool b2 => simp [OverlayShapeB, objShapeB] at ho
        | null => simp [OverlayShapeB, objShapeB] at ho
        | undef => simp [OverlayShapeB, objShapeB] at ho
        | arr xs => simp [OverlayShapeB, objShapeB] at ho
    | str s => simp [FullShapeB, objShapeB] at hb
    | num n => simp [FullShapeB, objShapeB] at hb
    | nan => simp [FullShapeB, objShapeB] at hb
    | bool b2 => simp [FullShapeB, objShapeB] at hb
    | null => simp [FullShapeB, objShapeB] at hb
    | undef => simp [FullShapeB, objShapeB] at hb
    | arr xs => simp [FullShapeB, objShapeB] at hb
  have := deepMerge_eq_claimMergeV o (some b) hc
  simpa [claimMerge] using this

/-! ## Sample documents used by the claim theorems -/

def cookieSecret32 : String := "abcdefghijklmnopqrstuvwxyz012345"

/-- A server section with the inline cookie secret. -/
def serverInline : JValue :=
  .obj [("host", .str "127.0.0.1"), ("port", .num 8080),
    ("cookie_secret", .str cookieSecret32), ("cookie_secure", .bool true)]

/-- A server section with only the cookie secret path
(the inline field explicitly `null`). -/
def serverPathOnly : JValue :=
  .obj [("host", .str "127.0.0.1"), ("port", .num 8080),
    ("cookie_secret", .null),
    ("cookie_secret_path", .str "/run/secrets/cookie"),
    ("cookie_secure", .bool true)]

/-- A server section with both the inline cookie secret and the path. -/
def serverBoth : JValue :=
  .obj [("host", .str "127.0.0.1"), ("port", .num 8080),
    ("cookie_secret", .str cookieSecret32),
    ("cookie_secret_path", .str "/run/secrets/cookie"),
    ("cookie_secure", .bool true)]

/-- A server section with neither cookie source. -/
def serverNeither : JValue :=
  .obj [("host", .str "127.0.0.1"), ("port", .num 8080),
    ("cookie_secret", .null), ("cookie_secure", .bool true)]

def headscaleOk : JValue :=
  .obj [("url", .str "https://example.com/"), ("config_strict", .bool true)]

/-- A minimal valid document around the given server section. -/
def mkDoc (server : JValue) : JValue :=
  .obj [("debug", .bool false), ("server", server), ("headscale", headscaleOk)]

/-- A minimal valid document with an oidc section. -/
def mkDocOidc (oidc : JValue) : JValue :=
  .obj [("debug", .bool false), ("server", serverInline), ("oidc", oidc),
    ("headscale", headscaleOk)]

/-- An oidc section from its client-secret fields and api-key fields. -/
def mkOidc (clientFields apiFields : List (String × JValue)) : JValue :=
  .obj ([("issuer", .str "https://idp.example.com"), ("client_id", .str "cid"),
    ("token_endpoint_auth_method", .str "client_secret_basic"),
    ("disable_api_key_login", .bool false)] ++ clientFields ++ apiFields)

def clientInline : List (String × JValue) := [("client_secret", .str "sec")]
def clientPathOnly : List (String × JValue) :=
  [("client_secret", .null), ("client_secret_path", .str "/run/secrets/oidc")]
def clientBoth : List (String × JValue) :=
  [("client_secret", .str "sec"),
   ("client_secret_path", .str "/run/secrets/oidc")]
def clientNeither : List (String × JValue) := [("client_secret", .null)]
def apiInline : List (String × JValue) := [("headscale_api_key", .str "key")]
def apiPathOnly : List (String × JValue) :=
  [("headscale_api_key_path", .str "/run/secrets/api")]
def apiBoth : List (String × JValue) :=
  [("headscale_api_key", .str "key"),
   ("headscale_api_key_path", .str "/run/secrets/api")]
def apiNeither : List (String × JValue) := []

/-- The full-schema output for `mkDoc serverInline` (agent defaulted, url
slash stripped). -/
def validatedBase : JValue :=
  .obj [("debug", .bool false),
    ("server", .obj [("host", .str "127.0.0.1"), ("port", .num 8080),
      ("cookie_secret", .str cookieSecret32), ("cookie_secure", .bool true),
      ("agent", agentDefault)]),
    ("headscale", .obj [("url", .str "https://example.com"),
      ("config_strict", .bool true)])]

/-! ## Claim C1 -/

/-- An override fragment exercising the optional fields selected by the
eight flags, with all the required partial-schema fields present. -/
def c1frag (f1 f2 f3 f4 f5 f6 f7 f8 : Bool) : JValue :=
  .obj ([("debug", .bool true),
    ("server", .obj ([("cookie_secure", .bool true)] ++
      (if f1 then [("host", JValue.str "0.0.0.0")] else []) ++
      (if f2 then [("port", JValue.num 8080)] else []) ++
      (if f3 then [("cookie_secret_path", JValue.str "/run/s")] else []) ++
      (if f4 then [("agent", JValue.obj [("authkey", JValue.str "k")])]
       else []))),
    ("headscale", .obj ([("config_strict", .bool true)] ++
      (if f7 then [("url", JValue.str "https://example.com/")] else []) ++
      (if f8 then [("tls_cert_path", JValue.str "/c.pem")] else [])))] ++
    (if f5 then [("oidc", JValue.obj [("disable_api_key_login", JValue.bool false),
      ("strict_validation", JValue.str "yes"), ("client_id", JValue.str "cid")])]
     else []) ++
    (if f6 then [("integration", JValue.obj [("docker",
      JValue.obj [("enabled", JValue.str "true"),
        ("container_name", JValue.str "hs")])])]
     else []))

/-- Claim C1, counterexample: the claim says partial-schema validation
succeeds on every fragment containing any subset of the configuration's
fields, but the empty fragment (the empty subset) is rejected, because
`partialHeadplaneConfig` keeps `debug`, `server` and `headscale` required
(schema.ts lines 152-158). -/
theorem overlay_empty_fragment_rejected : validateOverlay (.obj []) = none :=
  rfl

/-- Claim C1 (amended): the partial schema keeps the full schema's field set
and coercions but does not make every field optional: `debug`, `server` and
`headscale` stay required at the root, as do `cookie_secure`,
`disable_api_key_login`, `strict_validation`, `config_strict` and the
integration `enabled`/`validate_manifest` flags inside their sections; a
fragment carrying those required fields validates with any subset of the
remaining fields, and dropping any of them is rejected. -/
theorem overlay_required_fields :
    (∀ f1 f2 f3 f4 f5 f6 f7 f8 : Bool,
      (validateOverlay (c1frag f1 f2 f3 f4 f5 f6 f7 f8)).isSome = true) ∧
    (validateOverlay (.obj [("server", .obj [("cookie_secure", .bool true)]),
      ("headscale", .obj [("config_strict", .bool true)])])).isSome = false ∧
    (validateOverlay (.obj [("debug", .bool true),
      ("headscale", .obj [("config_strict", .bool true)])])).isSome = false ∧
    (validateOverlay (.obj [("debug", .bool true),
      ("server", .obj [("cookie_secure", .bool true)])])).isSome = false ∧
    (validateOverlay (.obj [("debug", .bool true), ("server", .obj []),
      ("headscale", .obj [("config_strict", .bool true)])])).isSome = false ∧
    (validateOverlay (.obj [("debug", .bool true),
      ("server", .obj [("cookie_secure", .bool true)]),
      ("headscale", .obj [])])).isSome = false ∧
    (validateOverlay (.obj [("debug", .bool true),
      ("server", .obj [("cookie_secure", .bool true)]),
      ("oidc", .obj [("strict_validation", .bool true)]),
      ("headscale", .obj [("config_strict", .bool true)])])).isSome = false ∧
    (validateOverlay (.obj [("debug", .bool true),
      ("server", .obj [("cookie_secure", .bool true)]),
      ("oidc", .obj [("disable_api_key_login", .bool true)]),
      ("headscale", .obj [("config_strict", .bool true)])])).isSome = false ∧
    (validateOverlay (.obj [("debug", .bool true),
      ("server", .obj [("cookie_secure", .bool true)]),
      ("integration", .obj [("docker", .obj [("container_name", .str "x")])]),
      ("headscale", .obj [("config_strict", .bool true)])])).isSome = false ∧
    (validateOverlay (.obj [("debug", .bool true),
      ("server", .obj [("cookie_secure", .bool true)]),
      ("integration", .obj [("kubernetes", .obj [("enabled", .bool true)])]),
      ("headscale", .obj [("config_strict", .bool true)])])).isSome = false ∧
    (validateOverlay (.obj [("debug", .bool true),
      ("server", .obj [("cookie_secure", .bool true)]),
      ("integration", .obj [("proc", .obj [])]),
      ("headscale", .obj [("config_strict", .bool true)])])).isSome = false := by
  refine ⟨?_, rfl, rfl, rfl, rfl, rfl, rfl, rfl, rfl, rfl, rfl⟩
  intro f1 f2 f3 f4 f5 f6 f7 f8
  cases f1 <;> cases f2 <;> cases f3 <;> cases f4 <;> cases f5 <;>
    cases f6 <;> cases f7 <;> cases f8 <;> rfl

/-! ## Claim C10 -/

/-- Claim C10: the string-or-boolean coercion maps every non-empty string —
including the string "false" — to `true`, and maps only the empty string and
boolean `false` to `false`. -/
theorem stringToBool_truthiness :
    (∀ s : String, s ≠ "" → stringToBool (.str s) = some (.bool true)) ∧
    stringToBool (.str "false") = some (.bool true) ∧
    stringToBool (.str "") = some (.bool false) ∧
    stringToBool (.bool false) = some (.bool false) ∧
    stringToBool (.bool true) = some (.bool true) ∧
    (∀ v b, stringToBool v = some (.bool b) → b = false →
      v = .str "" ∨ v = .bool false) := by
  refine ⟨?_, rfl, rfl, rfl, rfl, ?_⟩
  · intro s hs
    simp [stringToBool, hs]
  · intro v b h hb
    subst hb
    cases v with
    | str s =>
        simp only [stringToBool, Option.some_inj] at h
        injection h with h
        left
        simp only [bne_eq_false_iff_eq] at h
        rw [h]
    | bool b2 =>
        simp only [stringToBool, Option.some_inj] at h
        injection h with h
        right
        rw [← h]
    | num n => simp [stringToBool] at h
    | nan => simp [stringToBool] at h
    | null => simp [stringToBool] at h
    | undef => simp [stringToBool] at h
    | arr xs => simp [stringToBool] at h
    | obj fs => simp [stringToBool] at h

/-- Witness for C10 at concrete inputs. -/
theorem stringToBool_truthiness_witness :
    stringToBool (.str "no") = some (.bool true) ∧
    (JValue.str "" = .str "" ∨ JValue.str "" = .bool false) :=
  ⟨stringToBool_truthiness.1 "no" (by decide),
   stringToBool_truthiness.2.2.2.2.2 (.str "") false rfl rfl⟩

/-! ## Claim C3 -/

/-- Claim C3, evaluation of the three secret-capable pairs.  The cookie and
client-secret pairs behave as the claim states (with "not set" expressed as
the declared `null`): both sources fail, neither fails, exactly one passes.
The `headscale_api_key` pair does not: `oidcConfig` declares
`headscale_api_key` as a required plain `"string"` (schema.ts line 42), so a
path-only document fails validation even though loader.ts lines 52-58
implement exactly that configuration — the last conjunct records the
failure at the claim's expected-passing input. -/
theorem secret_pairs_evaluation :
    (validateFull (mkDoc serverInline)).isSome = true ∧
    (validateFull (mkDoc serverPathOnly)).isSome = true ∧
    (validateFull (mkDoc serverBoth)).isSome = false ∧
    (validateFull (mkDoc serverNeither)).isSome = false ∧
    (validateFull (mkDocOidc (mkOidc clientInline apiInline))).isSome = true ∧
    (validateFull (mkDocOidc (mkOidc clientPathOnly apiInline))).isSome = true ∧
    (validateFull (mkDocOidc (mkOidc clientBoth apiInline))).isSome = false ∧
    (validateFull (mkDocOidc (mkOidc clientNeither apiInline))).isSome = false ∧
    (validateFull (mkDocOidc (mkOidc clientInline apiBoth))).isSome = false ∧
    (validateFull (mkDocOidc (mkOidc clientInline apiNeither))).isSome = false ∧
    (validateFull (mkDocOidc (mkOidc clientInline apiPathOnly))).isSome = false := by
  decide

/-! ## Claim C4 -/

/-- Claim C4, counterexample: the claim says full-schema validation fails on
a document with an unknown key inside any named sub-section, but an unknown
key directly under `server` is silently deleted and validation succeeds —
`serverConfig` sets no undeclared-key policy of its own, so the root's
`onDeepUndeclaredKey("delete")` governs it. -/
theorem unknown_key_under_server_accepted :
    validateFull (mkDoc (.obj [("host", .str "127.0.0.1"),
      ("port", .num 8080), ("cookie_secret", .str cookieSecret32),
      ("cookie_secure", .bool true), ("bogus", .str "x")])) =
    some validatedBase := rfl

/-- Claim C4 (amended): unknown keys are rejected inside the sub-sections
that set the reject policy — `oidc`, `headscale`, `server.agent`,
`integration` and its `docker`/`kubernetes`/`proc` children — while unknown
keys at the document root or directly under `server` are silently removed
and validation succeeds. -/
theorem unknown_key_policy :
    (validateFull (.obj [("debug", .bool false), ("server", serverInline),
      ("integration", .obj [("docker", .obj [("enabled", .bool true),
        ("container_name", .str "hs"), ("bogus", .str "x")])]),
      ("headscale", headscaleOk)])).isSome = false ∧
    (validateFull (mkDocOidc (.obj ([("bogus", .str "x")] ++
      [("issuer", .str "https://idp.example.com"), ("client_id", .str "cid"),
       ("token_endpoint_auth_method", .str "client_secret_basic"),
       ("disable_api_key_login", .bool false),
       ("client_secret", .str "sec"),
       ("headscale_api_key", .str "key")])))).isSome = false ∧
    (validateFull (mkDoc serverInline)).isSome = true ∧
    (validateFull (.obj [("debug", .bool false), ("server", serverInline),
      ("headscale", .obj [("url", .str "https://example.com/"),
        ("config_strict", .bool true),
        ("bogus", .str "x")])])).isSome = false ∧
    (validateFull (mkDoc (.obj [("host", .str "127.0.0.1"),
      ("port", .num 8080), ("cookie_secret", .str cookieSecret32),
      ("cookie_secure", .bool true),
      ("agent", .obj [("authkey", .str "k"),
        ("bogus", .str "x")])]))).isSome = false ∧
    (validateFull (.obj [("debug", .bool false), ("server", serverInline),
      ("integration", .obj [("kubernetes", .obj [("enabled", .bool true),
        ("pod_name", .str "p"), ("validate_manifest", .bool true),
        ("bogus", .str "x")])]),
      ("headscale", headscaleOk)])).isSome = false ∧
    (validateFull (.obj [("debug", .bool false), ("server", serverInline),
      ("integration", .obj [("proc", .obj [("enabled", .bool true),
        ("bogus", .str "x")])]),
      ("headscale", headscaleOk)])).isSome = false ∧
    (validateFull (.obj [("debug", .bool false), ("server", serverInline),
      ("integration", .obj [("bogus", .obj [])]),
      ("headscale", headscaleOk)])).isSome = false ∧
    validateFull (.obj [("debug", .bool false), ("server", serverInline),
      ("headscale", headscaleOk), ("unknown_root", .str "x")]) =
      some validatedBase ∧
    validateFull (mkDoc (.obj [("host", .str "127.0.0.1"),
      ("port", .num 8080), ("cookie_secret", .str cookieSecret32),
      ("cookie_secure", .bool true), ("extra", .num 1)])) =
      some validatedBase := by
  refine ⟨?_, ?_, ?_, ?_, ?_, ?_, ?_, ?_, rfl, rfl⟩ <;> decide

/-! ## Claim C9 -/

/-- The headscale validator on a two-field section reduces to the trailing
slash strip of its url. -/
theorem validateHeadscale_url (u : String) (b : Bool)
    (hu : isUrlString u = true) :
    validateHeadscale (.obj [("url", .str u), ("config_strict", .bool b)]) =
      some (.obj [("url", .str (stripTrailingSlash u)),
        ("config_strict", .bool b)]) := by
  simp [validateHeadscale, getKey, headscaleDeclaredKeys, hu, stringToBool]

theorem strip_append_slash (s : String) :
    stripTrailingSlash (s ++ "/") = s := by
  cases s with
  | mk l =>
      show stripTrailingSlash (String.mk (l ++ ['/'])) = String.mk l
      simp [stripTrailingSlash, jsEndsWithSlash, jsDropLastChar,
        List.getLast?_concat, List.dropLast_concat]

theorem strip_no_slash (s : String) (h : jsEndsWithSlash s = false) :
    stripTrailingSlash s = s := by
  simp [stripTrailingSlash, h]

/-- Claim C9, counterexample: the claim says validation removes any trailing
slash, but the morph removes exactly one character, so a url ending in two
slashes validates to one that still ends in a slash. -/
theorem url_double_slash_kept :
    validateFull (.obj [("debug", .bool false), ("server", serverInline),
      ("headscale", .obj [("url", .str "https://example.com//"),
        ("config_strict", .bool true)])]) =
      some (.obj [("debug", .bool false),
        ("server", .obj [("host", .str "127.0.0.1"), ("port", .num 8080),
          ("cookie_secret", .str cookieSecret32),
          ("cookie_secure", .bool true), ("agent", agentDefault)]),
        ("headscale", .obj [("url", .str "https://example.com/"),
          ("config_strict", .bool true)])]) ∧
    jsEndsWithSlash "https://example.com/" = true := ⟨rfl, by decide⟩

/-- Claim C9 (amended): full-schema validation removes exactly one trailing
slash from `headscale.url`: a url written with a single trailing slash
validates to the url without it, and a url with no trailing slash is
returned unchanged. -/
theorem url_strips_one_slash :
    (∀ (s : String) (b : Bool), isUrlString (s ++ "/") = true →
      validateHeadscale (.obj [("url", .str (s ++ "/")),
        ("config_strict", .bool b)]) =
        some (.obj [("url", .str s), ("config_strict", .bool b)])) ∧
    (∀ (s : String) (b : Bool), isUrlString s = true →
      jsEndsWithSlash s = false →
      validateHeadscale (.obj [("url", .str s), ("config_strict", .bool b)]) =
        some (.obj [("url", .str s), ("config_strict", .bool b)])) := by
  constructor
  · intro s b hu
    rw [validateHeadscale_url (s ++ "/") b hu, strip_append_slash]
  · intro s b hu hns
    rw [validateHeadscale_url s b hu, strip_no_slash s hns]

/-- Witness for C9's amended theorem at a concrete url. -/
theorem url_strips_one_slash_witness :
    isUrlString ("https://hs.example" ++ "/") = true ∧
    validateHeadscale (.obj [("url", .str ("https://hs.example" ++ "/")),
      ("config_strict", .bool true)]) =
      some (.obj [("url", .str "https://hs.example"),
        ("config_strict", .bool true)]) :=
  ⟨by decide, url_strips_one_slash.1 "https://hs.example" true (by decide)⟩

/-! ## Claim C6 -/

/-- The first marker name whose environment value is JS-falsy (unset or the
empty string) — the variable at which the interpolation loop stops. -/
def firstFalsy (envL : String → Option String) :
    List (List Char) → Option String
  | [] => none
  | nm :: rest =>
      match envL (String.mk nm) with
      | none => some (String.mk nm)
      | some v => if v = "" then some (String.mk nm) else firstFalsy envL rest

theorem interpGo_error (envL : String → Option String) :
    ∀ (names : List (List Char)) (acc : List Char) (n : String),
    firstFalsy envL names = some n → interpGo envL names acc = .error n := by
  intro names
  induction names with
  | nil => intro acc n h; simp [firstFalsy] at h
  | cons nm rest ih =>
      intro acc n h
      cases hv : envL (String.mk nm) with
      | none =>
          simp only [firstFalsy, hv] at h
          injection h with h
          simp only [interpGo, hv]
          rw [h]
      | some v =>
          simp only [firstFalsy, hv] at h
          simp only [interpGo, hv]
          by_cases hve : v = ""
          · rw [if_pos hve] at h ⊢
            injection h with h
            rw [h]
          · rw [if_neg hve] at h ⊢
            exact ih _ n h

theorem interpGo_ok (envL : String → Option String) :
    ∀ (names : List (List Char)) (acc : List Char),
    (∀ nm ∈ names, ∃ v, envL (String.mk nm) = some v ∧ v ≠ "") →
    ∃ out, interpGo envL names acc = .ok out := by
  intro names
  induction names with
  | nil => intro acc _; exact ⟨acc, rfl⟩
  | cons nm rest ih =>
      intro acc hall
      obtain ⟨v, hv, hvne⟩ := hall nm (List.mem_cons_self _ _)
      simp only [interpGo, hv, if_neg hvne]
      exact ih _ (fun nm2 hm => hall nm2 (List.mem_cons_of_mem _ hm))

/-- Claim C6, counterexample: the claim says that when all referenced
variables are set, every marker is substituted and the file is read; but the
interpolation loop tests the value with JS truthiness (`if (!value)`), so a
variable set to the empty string aborts resolution with
`MissingInterpolationVariable` and no file is read. -/
theorem interpolation_empty_value_fails :
    (fun n => if n == "FOO" then some "" else none) "FOO" = some "" ∧
    loadSecretFromFile (fun n => if n == "FOO" then some "" else none)
      (fun _ => some "topsecret") "${FOO}/secret.txt" none =
      .error (.missingVar "FOO") := ⟨rfl, rfl⟩

/-- Claim C6 (amended): the resolver fails at the first marker whose
variable is unset or set to the empty string, reporting that variable, and
performs no file read (the result is the same error for every filesystem);
when every referenced variable is set to a non-empty value, the markers are
substituted sequentially into the path and the resolver proceeds to read the
fully substituted path. -/
theorem secret_interpolation :
    (∀ (envL : String → Option String) (path : String) (n : String)
      (fileRead : String → Option String) (rl : Option Nat),
      firstFalsy envL (scanMarkers path.data) = some n →
      loadSecretFromFile envL fileRead path rl = .error (.missingVar n)) ∧
    (∀ (envL : String → Option String) (path : String),
      (∀ nm ∈ scanMarkers path.data, ∃ v, envL (String.mk nm) = some v ∧
        v ≠ "") →
      ∃ resolved, interpolatePath envL path = .ok resolved ∧
        ∀ (fileRead : String → Option String) (rl : Option Nat),
          loadSecretFromFile envL fileRead path rl =
            readSecretStage fileRead resolved rl) := by
  constructor
  · intro envL path n fileRead rl h
    have h2 := interpGo_error envL (scanMarkers path.data) path.data n h
    simp [loadSecretFromFile, interpolatePath, h2]
  · intro envL path hall
    obtain ⟨out, hout⟩ := interpGo_ok envL (scanMarkers path.data)
      path.data hall
    refine ⟨String.mk out, ?_, ?_⟩
    · simp [interpolatePath, hout]
    · intro fileRead rl
      simp [loadSecretFromFile, interpolatePath, hout]

/-- Witness for C6's theorem on the spec's own example: with `FOO=/etc`,
`${FOO}/secret.txt` resolves and the secret is read from
`/etc/secret.txt`. -/
theorem secret_interpolation_witness :
    (∀ nm ∈ scanMarkers "${FOO}/secret.txt".data,
      ∃ v, (fun n => if n == "FOO" then some "/etc" else none)
        (String.mk nm) = some v ∧ v ≠ "") ∧
    (∃ resolved, interpolatePath
        (fun n => if n == "FOO" then some "/etc" else none)
        "${FOO}/secret.txt" = .ok resolved ∧
      ∀ (fileRead : String → Option String) (rl : Option Nat),
        loadSecretFromFile (fun n => if n == "FOO" then some "/etc" else none)
          fileRead "${FOO}/secret.txt" rl =
          readSecretStage fileRead resolved rl) ∧
    interpolatePath (fun n => if n == "FOO" then some "/etc" else none)
      "${FOO}/secret.txt" = .ok "/etc/secret.txt" := by
  have hall : ∀ nm ∈ scanMarkers "${FOO}/secret.txt".data,
      ∃ v, (fun n => if n == "FOO" then some "/etc" else none)
        (String.mk nm) = some v ∧ v ≠ "" := by
    intro nm hm
    rw [show scanMarkers "${FOO}/secret.txt".data = ["FOO".data] from rfl] at hm
    simp only [List.mem_singleton] at hm
    subst hm
    exact ⟨"/etc", rfl, by decide⟩
  exact ⟨hall, secret_interpolation.2
    (fun n => if n == "FOO" then some "/etc" else none)
    "${FOO}/secret.txt" hall, rfl⟩

/-! ## Claim C7 -/

theorem jsTrim_len_zero (s : String) : (s.length = 0) = (s = "") := by
  cases s with
  | mk l =>
      cases l with
      | nil => simp [String.length]
      | cons c cs =>
          simp only [String.length, List.length_cons, eq_iff_iff]
          constructor
          · intro h; omega
          · intro h
            have : (String.mk (c :: cs)).data = ("" : String).data := by
              rw [h]
            simp at this

/-- Claim C7, counterexample: the claim says a given `requiredLength` whose
value differs from the trimmed length fails with a length mismatch, but the
check is guarded by JS truthiness (`requiredLength && ...`), so
`requiredLength = 0` is skipped and the secret (here of length 3) is
returned. -/
theorem required_length_zero_skipped :
    loadSecretFromFile (fun _ => none) (fun _ => some " abc ") "p" (some 0) =
      .ok "abc" := rfl

/-- Claim C7 (amended): after a successful read the resolver trims
leading/trailing whitespace; an empty trimmed result fails with
`EmptySecret`; a non-zero `requiredLength` differing from the trimmed length
fails with `SecretLengthMismatch` reporting expected and actual; otherwise
(no `requiredLength`, a matching one, or the JS-falsy `0`) exactly the
trimmed string is returned. -/
theorem read_secret_stage_spec :
    (∀ (fileRead : String → Option String) (p content : String)
      (rl : Option Nat), fileRead p = some content → jsTrim content = "" →
      readSecretStage fileRead p rl = .error .empty) ∧
    (∀ (fileRead : String → Option String) (p content : String) (n : Nat),
      fileRead p = some content → jsTrim content ≠ "" → n ≠ 0 →
      (jsTrim content).length ≠ n →
      readSecretStage fileRead p (some n) =
        .error (.lengthMismatch n (jsTrim content).length)) ∧
    (∀ (fileRead : String → Option String) (p content : String),
      fileRead p = some content → jsTrim content ≠ "" →
      readSecretStage fileRead p none = .ok (jsTrim content)) ∧
    (∀ (fileRead : String → Option String) (p content : String) (n : Nat),
      fileRead p = some content → jsTrim content ≠ "" →
      (jsTrim content).length = n →
      readSecretStage fileRead p (some n) = .ok (jsTrim content)) ∧
    (∀ (fileRead : String → Option String) (p content : String),
      fileRead p = some content → jsTrim content ≠ "" →
      readSecretStage fileRead p (some 0) = .ok (jsTrim content)) := by
  refine ⟨?_, ?_, ?_, ?_, ?_⟩
  · intro fileRead p content rl hr ht
    simp [readSecretStage, hr, jsTrim_len_zero, ht]
  · intro fileRead p content n hr ht hn hlen
    simp [readSecretStage, hr, jsTrim_len_zero, ht, hn, hlen]
  · intro fileRead p content hr ht
    simp [readSecretStage, hr, jsTrim_len_zero, ht]
  · intro fileRead p content n hr ht hlen
    subst hlen
    simp [readSecretStage, hr, jsTrim_len_zero, ht]
  · intro fileRead p content hr ht
    simp [readSecretStage, hr, jsTrim_len_zero, ht]

/-- Witness for C7's theorem at concrete content. -/
theorem read_secret_stage_spec_witness :
    (fun q => if q == "p" then some "  key \n" else none) "p" =
      some "  key \n" ∧
    jsTrim "  key \n" ≠ "" ∧ (5 : Nat) ≠ 0 ∧ (jsTrim "  key \n").length ≠ 5 ∧
    readSecretStage (fun q => if q == "p" then some "  key \n" else none) "p"
      (some 5) = .error (.lengthMismatch 5 (jsTrim "  key \n").length) :=
  ⟨rfl, by decide, by decide, by decide,
    read_secret_stage_spec.2.1
      (fun q => if q == "p" then some "  key \n" else none) "p" "  key \n" 5
      rfl (by decide) (by decide) (by decide)⟩

/-! ## Claim C8 -/

/-- Claim C8: with environment-override loading disabled, `loadConfig`
returns the document exactly as it stands after secret resolution — the
result is the validate-then-resolve pipeline with the env-coalescing stage
never applied, and it does not depend on the contents of any `.env` file
(the `.env` load is skipped together with the overrides). -/
theorem loadConfig_env_disabled :
    ∀ (rootKeys : List String) (raw : JValue) (debug : Bool)
      (env dotenvFile dotenvFile2 : List (String × String))
      (fileRead : String → Option String),
      loadConfig false rootKeys raw debug env dotenvFile fileRead =
        (validateFull (prepDoc raw debug)).bind
          (resolveSecretsStage env fileRead) ∧
      loadConfig false rootKeys raw debug env dotenvFile fileRead =
        loadConfig false rootKeys raw debug env dotenvFile2 fileRead := by
  intro rootKeys raw debug env dotenvFile dotenvFile2 fileRead
  constructor
  · simp only [loadConfig]
    cases hv : validateFull (prepDoc raw debug) with
    | none => simp [hv]
    | some config =>
        cases hr : resolveSecretsStage env fileRead config with
        | none => simp [hv, hr]
        | some c2 => simp [hv, hr]
  · rfl

/-! ## Claim C5 -/

/-- Claim C5: the env override coalescer builds its object from exactly the
kept entries — those with a non-empty value, the `HEADPLANE_` prefix, and a
key outside the root-variable set (dropping any other entry leaves the
object unchanged, so root-excluded variables never appear); each kept key is
stripped of the prefix, lower-cased and split on the double underscore
(`HEADPLANE_OIDC__CLIENT_ID` decodes to `["oidc", "client_id"]`), and the
raw string value is assigned at that path; every leaf of the object is such
an assignment. -/
theorem coalesce_env_object :
    (∀ (rootKeys : List String) (pre post : List (String × String))
      (k v : String), keepEnvEntry rootKeys (k, v) = false →
      buildEnvConfig (pre ++ (k, v) :: post) rootKeys =
        buildEnvConfig (pre ++ post) rootKeys) ∧
    decodeEnvKey "HEADPLANE_OIDC__CLIENT_ID" = ["oidc", "client_id"] ∧
    (∀ (rootKeys : List String) (env : List (String × String)),
      EnvPathsIndep env rootKeys →
      ∃ fs, buildEnvConfig env rootKeys = some fs ∧
        (∀ kv, kv ∈ env → keepEnvEntry rootKeys kv = true →
          getPath (.obj fs) (decodeEnvKey kv.1) = some (.str kv.2)) ∧
        (∀ q w, getPath (.obj fs) q = some w → isObjV w = false →
          ∃ kv, kv ∈ env ∧ keepEnvEntry rootKeys kv = true ∧
            q = decodeEnvKey kv.1 ∧ w = .str kv.2)) := by
  refine ⟨?_, rfl, buildEnvConfig_spec⟩
  intro rootKeys pre post k v h
  simp [buildEnvConfig, List.filter_append, List.filter_cons, h]

def env5 : List (String × String) :=
  [("HEADPLANE_OIDC__CLIENT_ID", "abc"), ("PATH", "/usr/bin"),
   ("HEADPLANE_CONFIG_PATH", "/etc/headplane/config.yaml"),
   ("HEADPLANE_SERVER__HOST", "10.0.0.1"), ("HEADPLANE_EMPTY", "")]

def rootKeys5 : List String :=
  ["HEADPLANE_CONFIG_PATH", "HEADPLANE_LOAD_ENV_OVERRIDES"]

/-- Witness for C5 on a concrete environment: the root-excluded and
non-prefixed entries are dropped and the kept entries land at their decoded
paths. -/
theorem coalesce_env_object_witness :
    keepEnvEntry rootKeys5 ("HEADPLANE_CONFIG_PATH",
      "/etc/headplane/config.yaml") = false ∧
    EnvPathsIndep env5 rootKeys5 ∧
    (∃ fs, buildEnvConfig env5 rootKeys5 = some fs ∧
      (∀ kv, kv ∈ env5 → keepEnvEntry rootKeys5 kv = true →
        getPath (.obj fs) (decodeEnvKey kv.1) = some (.str kv.2)) ∧
      (∀ q w, getPath (.obj fs) q = some w → isObjV w = false →
        ∃ kv, kv ∈ env5 ∧ keepEnvEntry rootKeys5 kv = true ∧
          q = decodeEnvKey kv.1 ∧ w = .str kv.2)) ∧
    buildEnvConfig ([("HEADPLANE_OIDC__CLIENT_ID", "abc")] ++
        ("PATH", "/usr/bin") :: [("HEADPLANE_SERVER__HOST", "10.0.0.1")])
        rootKeys5 =
      buildEnvConfig ([("HEADPLANE_OIDC__CLIENT_ID", "abc")] ++
        [("HEADPLANE_SERVER__HOST", "10.0.0.1")]) rootKeys5 ∧
    buildEnvConfig env5 rootKeys5 =
      some [("oidc", .obj [("client_id", .str "abc")]),
            ("server", .obj [("host", .str "10.0.0.1")])] :=
  ⟨by decide, by decide,
   coalesce_env_object.2.2 rootKeys5 env5 (by decide),
   coalesce_env_object.1 rootKeys5 [("HEADPLANE_OIDC__CLIENT_ID", "abc")]
     [("HEADPLANE_SERVER__HOST", "10.0.0.1")] "PATH" "/usr/bin" (by decide),
   rfl⟩

/-! ## Claim C2 -/

def mergeBase : JValue :=
  .obj [("debug", .bool false),
    ("server", .obj [("host", .str "127.0.0.1"), ("port", .num 8080),
      ("cookie_secret", .str cookieSecret32), ("cookie_secure", .bool true),
      ("agent", agentDefault)]),
    ("oidc", .obj [("issuer", .str "https://idp.example.com"),
      ("client_id", .str "cid"), ("client_secret", .str "sec"),
      ("token_endpoint_auth_method", .str "client_secret_basic"),
      ("user_storage_file", .str "/var/lib/headplane/users.json"),
      ("disable_api_key_login", .bool false),
      ("headscale_api_key", .str "key"),
      ("strict_validation", .bool true)]),
    ("headscale", .obj [("url", .str "https://example.com"),
      ("config_strict", .bool true)])]

def mergeOverride : JValue :=
  .obj [("debug", .bool true),
    ("server", .obj [("cookie_secure", .bool true), ("port", .num 9000),
      ("agent", .obj [("authkey", .str "k2")])]),
    ("headscale", .obj [("config_strict", .bool false)]),
    ("extra", .arr [.num 1, .num 2]),
    ("note", .obj [("deep", .str "kept")]),
    ("gone", .undef)]

/-- Witness for C2 on a concrete pair: a validated base, an override that
touches nested scalars, carries an undeclared array and object, and an
explicit `undefined`. -/
theorem deepMerge_agrees_witness :
    FullShapeB mergeBase = true ∧ OverlayShapeB mergeOverride = true ∧
    deepMerge mergeBase mergeOverride = claimMerge mergeBase mergeOverride ∧
    deepMerge mergeBase mergeOverride =
      .obj [("debug", .bool true),
        ("server", .obj [("host", .str "127.0.0.1"), ("port", .num 9000),
          ("cookie_secret", .str cookieSecret32),
          ("cookie_secure", .bool true),
          ("agent", .obj [("authkey", .str "k2"), ("ttl", .num 180000),
            ("cache_path", .str "/var/lib/headplane/agent_cache.json")])]),
        ("oidc", .obj [("issuer", .str "https://idp.example.com"),
          ("client_id", .str "cid"), ("client_secret", .str "sec"),
          ("token_endpoint_auth_method", .str "client_secret_basic"),
          ("user_storage_file", .str "/var/lib/headplane/users.json"),
          ("disable_api_key_login", .bool false),
          ("headscale_api_key", .str "key"),
          ("strict_validation", .bool true)]),
        ("headscale", .obj [("url", .str "https://example.com"),
          ("config_strict", .bool false)]),
        ("extra", .arr [.num 1, .num 2]),
        ("note", .obj [("deep", .str "kept")])] :=
  ⟨by decide, by decide,
   deepMerge_agrees mergeBase mergeOverride (by decide) (by decide), rfl⟩

/-- A server section with `cookie_secret: null` and the empty string as
`cookie_secret_path`: the mutual-exclusion pipe sees one side set, so it
validates. -/
def serverPathEmpty : JValue :=
  .obj [("host", .str "127.0.0.1"), ("port", .num 8080),
    ("cookie_secret", .null), ("cookie_secret_path", .str ""),
    ("cookie_secure", .bool true)]

/-- The full-schema output for `mkDoc serverPathEmpty`: `cookie_secret`
stays `null`, which secret resolution never replaces because the JS
truthiness test on the empty path skips the read. -/
def nullCookieBase : JValue :=
  .obj [("debug", .bool false),
    ("server", .obj [("host", .str "127.0.0.1"), ("port", .num 8080),
      ("cookie_secret", .null), ("cookie_secret_path", .str ""),
      ("cookie_secure", .bool true), ("agent", agentDefault)]),
    ("headscale", .obj [("url", .str "https://example.com"),
      ("config_strict", .bool true)])]

/-- A partial-schema fragment that overrides `server.cookie_secret` with
`null` (the partial server schema keeps `32 <= string <= 32 | null`). -/
def nullCookieFrag : JValue :=
  .obj [("debug", .bool true),
    ("server", .obj [("cookie_secure", .bool true),
      ("cookie_secret", .null)]),
    ("headscale", .obj [("config_strict", .bool true)])]

/-- A file reader with no files, to show no read happens on the empty path. -/
def noRead : String → Option String := fun _ => none

/-- Counterexample to C2 as stated: the base with `cookie_secret: null` and
`cookie_secret_path: ""` is reachable (it validates, and secret resolution
leaves it unchanged even with no readable files), the `null`-cookie override
fragment validates, yet `deepMerge` turns the `null`-on-`null` slot into the
empty object — the `typeof`-object branch fires for `null` — where the
claim's primitive-overwrites-outright reading (`claimMerge`) yields `null`. -/
theorem deepMerge_null_on_null_not_overwrite :
    validateFull (mkDoc serverPathEmpty) = some nullCookieBase ∧
    resolveSecretsStage [] noRead nullCookieBase = some nullCookieBase ∧
    validateOverlay nullCookieFrag = some nullCookieFrag ∧
    getPath (deepMerge nullCookieBase nullCookieFrag)
      ["server", "cookie_secret"] = some (.obj []) ∧
    getPath (claimMerge nullCookieBase nullCookieFrag)
      ["server", "cookie_secret"] = some .null :=
  ⟨rfl, rfl, rfl, rfl, rfl⟩

end Headplane
